import Mathlib

/-!
Shallow embedding of the job_scraper ingestion pipeline, checked against its
natural-language specification.

Sources embedded here:
* `src/src/db_manager.py` — `DatabaseManager.insert_jobs` (staging + merge upsert)
* `src/archived_files/src/scraper.py` — `process_jobs`, `_clean_job_data`,
  `_validate_job`, `_process_jobs`, `job_stream`, `fetch_jobs`,
  `_produce_jobs`, `_consume_jobs`

Machine-level conventions: Python dicts become association lists over an
inductive `Val` type; time is threaded explicitly (`Nat` ticks or strings);
fallible operations return `Option`; library collaborators (hashlib digest,
dateparser) are modelled by concrete deterministic Lean functions, and the
claims proved below depend only on the properties of those collaborators that
their documentation guarantees (determinism, being a function of the input).
-/

set_option maxRecDepth 8000

namespace JobScraper

/-- A Python-ish JSON value: the dynamic values stored in a job record dict. -/
inductive Val where
  | vnull : Val
  | vbool : Bool → Val
  | vnum : Int → Val
  | vstr : String → Val
  | vlist : List Val → Val
  | vdict : List (String × Val) → Val
deriving Inhabited

mutual

/-- Python `==` on embedded values (used by the dedup seen-set test). -/
def valEq : Val → Val → Bool
  | .vnull, .vnull => true
  | .vbool a, .vbool b => a == b
  | .vnum a, .vnum b => a == b
  | .vstr a, .vstr b => a == b
  | .vlist a, .vlist b => valEqList a b
  | .vdict a, .vdict b => valEqDict a b
  | _, _ => false

def valEqList : List Val → List Val → Bool
  | [], [] => true
  | a :: as, b :: bs => valEq a b && valEqList as bs
  | _, _ => false

def valEqDict : List (String × Val) → List (String × Val) → Bool
  | [], [] => true
  | (k, v) :: as, (k', v') :: bs => k == k' && valEq v v' && valEqDict as bs
  | _, _ => false

end

/-- A job record: a Python dict as an ordered association list. -/
abbrev Rec := List (String × Val)

/-- Python `key in dict`. -/
def hasKey (r : Rec) (k : String) : Bool :=
  match r with
  | [] => false
  | p :: rest => p.1 == k || hasKey rest k

/-- Python `dict.get(key)`: first binding wins. -/
def getV (r : Rec) (k : String) : Option Val :=
  match r with
  | [] => none
  | p :: rest => if p.1 == k then some p.2 else getV rest k

/-- Python `dict.get(key, default)`. -/
def getD (r : Rec) (k : String) (d : Val) : Val :=
  (getV r k).getD d

/-- Python `dict[key] = v`: overwrite in place if the key exists, else append. -/
def setV (r : Rec) (k : String) (v : Val) : Rec :=
  if hasKey r k then
    r.map (fun p => if p.1 == k then (p.1, v) else p)
  else
    r ++ [(k, v)]

/-- Python truthiness for `Val`: `None`, `False`, `0`, `""`, `[]`, `{}` are falsy. -/
def truthy : Val → Bool
  | .vnull => false
  | .vbool b => b
  | .vnum n => n != 0
  | .vstr s => !s.isEmpty
  | .vlist l => !l.isEmpty
  | .vdict l => !l.isEmpty

/-- Python `str.strip()` (whitespace on both ends). -/
def pyStrip (s : String) : String :=
  String.mk (((s.toList.dropWhile Char.isWhitespace).reverse.dropWhile
    Char.isWhitespace).reverse)

/-- Split a character list on a separator character (semantics of Python's
`str.split(sep)` / `String.splitOn` for one-character separators). -/
def chSplit (sep : Char) : List Char → List (List Char)
  | [] => [[]]
  | c :: rest =>
      if c = sep then [] :: chSplit sep rest
      else
        match chSplit sep rest with
        | g :: gs => (c :: g) :: gs
        | [] => [[c]]

/-- String split on a one-character separator. -/
def splitOnC (sep : Char) (s : String) : List String :=
  (chSplit sep s.toList).map String.mk

/-- Value of a digit-character list. -/
def digitsVal (cs : List Char) : Nat :=
  cs.foldl (fun a c => a * 10 + (c.toNat - 48)) 0

/-- Digits-only string to `Nat` (the semantics of `int(s)` on the inputs
exercised, and of `String.toNat?`). -/
def toNatC (s : String) : Option Nat :=
  let cs := s.toList
  if !cs.isEmpty && cs.all Char.isDigit then some (digitsVal cs) else none

/-- Prefix test (`str.startswith`). -/
def startsWithC (s pre : String) : Bool :=
  pre.toList.isPrefixOf s.toList

/-- Suffix test (`str.endswith`). -/
def endsWithC (s suf : String) : Bool :=
  suf.toList.reverse.isPrefixOf s.toList.reverse

mutual

/-- Python `str(v)` rendering, used when the source coerces scalars to strings.
The exact rendering of compound values is irrelevant to every claim below;
all that matters is that it is a deterministic function of the value.
Strings inside containers render with quotes, as in Python `repr`. -/
def pyStr : Val → String
  | .vnull => "None"
  | .vbool b => if b then "True" else "False"
  | .vnum n => toString n
  | .vstr s => s
  | .vlist l => "[" ++ pyStrList l ++ "]"
  | .vdict l => "\x7b" ++ pyStrDict l ++ "\x7d"

/-- Renders list elements. -/
def pyStrList : List Val → String
  | [] => ""
  | [.vstr s] => "'" ++ s ++ "'"
  | [x] => pyStr x
  | .vstr s :: xs => "'" ++ s ++ "', " ++ pyStrList xs
  | x :: xs => pyStr x ++ ", " ++ pyStrList xs

/-- Renders dict entries. -/
def pyStrDict : List (String × Val) → String
  | [] => ""
  | [(k, .vstr s)] => k ++ ": '" ++ s ++ "'"
  | [(k, v)] => k ++ ": " ++ pyStr v
  | (k, .vstr s) :: xs => k ++ ": '" ++ s ++ "', " ++ pyStrDict xs
  | (k, v) :: xs => k ++ ": " ++ pyStr v ++ ", " ++ pyStrDict xs

end

mutual

/-- `json.dumps(v, ensure_ascii=False)`, modelled with Python's default
separators. Only determinism matters to the claims. -/
def jsonDumps : Val → String
  | .vnull => "null"
  | .vbool b => if b then "true" else "false"
  | .vnum n => toString n
  | .vstr s => "\"" ++ s ++ "\""
  | .vlist l => "[" ++ jsonDumpsList l ++ "]"
  | .vdict l => "\x7b" ++ jsonDumpsDict l ++ "\x7d"

def jsonDumpsList : List Val → String
  | [] => ""
  | [x] => jsonDumps x
  | x :: xs => jsonDumps x ++ ", " ++ jsonDumpsList xs

def jsonDumpsDict : List (String × Val) → String
  | [] => ""
  | [(k, v)] => "\"" ++ k ++ "\": " ++ jsonDumps v
  | (k, v) :: xs => "\"" ++ k ++ "\": " ++ jsonDumps v ++ ", " ++ jsonDumpsDict xs

end

/-- Models `hashlib.md5(s.encode()).hexdigest()`: an external digest
collaborator. The claims depend only on the digest being a deterministic
function of its input string, which any concrete Lean function provides; we
use a simple polynomial byte hash rendered in hex. -/
def md5Hex (s : String) : String :=
  let h := s.toList.foldl (fun (a : Nat) c => (a * 131 + c.toNat) % (2 ^ 128)) 7
  Nat.toDigits 16 h |>.asString

end JobScraper

namespace JobScraper

/-! ## BatchUpsertEngine: `DatabaseManager.insert_jobs` (src/src/db_manager.py)

The primary table `jobs` is keyed by `id`; `created_at`/`updated_at` default to
the insertion time (`CREATE TABLE` lines 231-261), an `ON UPDATE` trigger plus
an explicit `updated_at = NOW()` in the merge statement refresh `updated_at`
(lines 326-344, 475). `insert_jobs` (lines 354-504) truncates the staging
table, bulk-inserts the transformed rows in chunks, then runs one
`INSERT ... SELECT ... ON CONFLICT (id) DO UPDATE` merge. -/

/-- One row of the primary `jobs` table: identity key, the mutable columns
(everything the merge's `DO UPDATE SET` list overwrites), and the two
timestamps the merge treats specially. -/
structure Row where
  id : String
  cols : Rec
  created_at : Nat
  updated_at : Nat

/-- A row of the staging table `jobs_temp`, as produced by
`_transform_job_for_db`: possibly-NULL id plus the remaining columns. -/
structure StagedRow where
  id : Option String
  cols : Rec

/-- `_transform_job_for_db` (db_manager.py lines 506-584), reduced to the
fields the merge semantics depend on: the `id` column is
`str(job.get("id")) if job.get("id") is not None else None`, and the rest of
the transformed dict forms the mutable column payload. The one failure mode
kept from the source: the transform raises (and `insert_jobs` skips the job,
lines 387-389) when `companyDetailsSummary` is present but neither a dict nor
`None`, since `job.get("companyDetailsSummary", {}).get(...)` then throws. -/
def transformJob (job : Rec) : Option StagedRow :=
  match getV job "companyDetailsSummary" with
  | some (.vdict _) => some (mkStaged job)
  | some .vnull => some (mkStaged job)
  | some _ => none
  | none => some (mkStaged job)
where
  mkStaged (job : Rec) : StagedRow :=
    { id := match getV job "id" with
            | some .vnull => none
            | some v => some (pyStr v)
            | none => none
      cols := job }

/-- Does the primary table hold a row with id `i`? -/
def hasId (t : List Row) (i : String) : Bool :=
  t.any (fun r => r.id == i)

/-- The `DO UPDATE SET` action on conflict: overwrite the mutable columns and
set `updated_at := now` on the conflicting row, leaving `created_at` (absent
from the `SET` list) and every other row untouched. -/
def updateTable (now : Nat) (t : List Row) (i : String) (c : Rec) : List Row :=
  t.map (fun r => if r.id == i then { r with cols := c, updated_at := now } else r)

/-- One step of the `ON CONFLICT (id) DO UPDATE` merge, for a staged row whose
id is `i`: a conflicting key is updated, a fresh key appends a new row with
both timestamps set to `now` (the column defaults). The accumulator also
counts rows inserted and rows updated by the statement. -/
def mergeStep (now : Nat) : (List Row × Nat × Nat) → (String × Rec) → (List Row × Nat × Nat)
  | (t, ins, upd), (i, c) =>
      if hasId t i then
        (updateTable now t i c, ins, upd + 1)
      else
        (t ++ [⟨i, c, now, now⟩], ins + 1, upd)

/-- The merge processed row by row over the staging table contents. -/
def mergePairs (now : Nat) : (List Row × Nat × Nat) → List (String × Rec) → (List Row × Nat × Nat)
  | acc, [] => acc
  | acc, p :: ps => mergePairs now (mergeStep now acc p) ps

/-- The (id, columns) pairs of the staged rows that carry an id. -/
def stagedPairs (staged : List StagedRow) : List (String × Rec) :=
  staged.filterMap (fun s => s.id.map (fun i => (i, s.cols)))

/-- The whole merge statement over the staging table contents. PostgreSQL
rejects the statement ("cannot affect row a second time") when two staged rows
share an id, and rejects a NULL primary key; both are modelled as `none`
(the error is then caught by `insert_jobs`'s outer handler). -/
def mergeStaged (now : Nat) (table : List Row) (staged : List StagedRow) :
    Option (List Row × Nat × Nat) :=
  let ids := staged.filterMap StagedRow.id
  if ids.length = staged.length ∧ ids.Nodup then
    some (mergePairs now (table, 0, 0) (stagedPairs staged))
  else
    none

/-- Lifecycle record kept in the `job_batches` tracking table. -/
inductive BatchEvent where
  | started (batchId : String) (jobCount : Nat)
  | completed (batchId : String) (insertCount : Nat)
  | failed (batchId : String)

/-- Database-side state threaded through `insert_jobs`. -/
structure DbState where
  table : List Row
  events : List BatchEvent

/-- Environment for one `insert_jobs` call: whether `ensure_connection()`
reports a usable connection (it returns a bool and swallows its own
exceptions, db_manager.py lines 146-176), and whether the DB round-trips
inside the big `try` succeed (any raised error there lands in the
catch-all at lines 495-504). -/
structure InsEnv where
  connOk : Bool
  dbOk : Bool

/-- `DatabaseManager.insert_jobs(jobs, batch_id)` (db_manager.py 354-504).
Returns the new database state and the int the Python function returns.
Faithful control flow: empty batch → 0; `ensure_connection()` false → 0 with
nothing attempted; otherwise record the batch as `processing`, transform the
jobs (skipping ones whose transform raises), truncate+load staging, run the
merge; on success record completion and return `inserted` (the count of rows
loaded into staging — the merge command tag is discarded by the source); on
any error record the batch as failed and return 0. -/
def insert_jobs (env : InsEnv) (now : Nat) (jobs : List Rec) (batchId : String)
    (st : DbState) : DbState × Nat :=
  if jobs.isEmpty then (st, 0)
  else if !env.connOk then (st, 0)
  else
    let st1 : DbState := { st with events := st.events ++ [.started batchId jobs.length] }
    let staged := jobs.filterMap transformJob
    let inserted := staged.length
    if env.dbOk then
      match mergeStaged now st1.table staged with
      | some (t', _, _) =>
          ({ table := t', events := st1.events ++ [.completed batchId inserted] }, inserted)
      | none =>
          ({ st1 with events := st1.events ++ [.failed batchId] }, 0)
    else
      ({ st1 with events := st1.events ++ [.failed batchId] }, 0)

end JobScraper

namespace JobScraper

/-! ## RecordProcessor: `process_jobs`, `_clean_job_data`, `_validate_job`
(src/archived_files/src/scraper.py lines 308-562)

The archived file's indentation is whitespace-mangled (as stored it is not
syntactically valid Python); the embedding follows the evident block
structure: in `_validate_job` the required-field loop returns `False` inside
its `if` branches, and `fetch_jobs`/`_process_jobs` bodies sit inside their
`try` blocks. -/

/-- Left-pad a number with zeros to the given width. -/
def padZ (w : Nat) (n : Nat) : String :=
  let s := toString n
  String.mk (List.replicate (w - s.length) '0') ++ s

/-- A parsed `datetime` value. -/
structure DTime where
  y : Nat
  mo : Nat
  d : Nat
  h : Nat
  mi : Nat
  s : Nat
  us : Nat

/-- Python `datetime.isoformat()`. -/
def isoformat (t : DTime) : String :=
  padZ 4 t.y ++ "-" ++ padZ 2 t.mo ++ "-" ++ padZ 2 t.d ++ "T" ++
  padZ 2 t.h ++ ":" ++ padZ 2 t.mi ++ ":" ++ padZ 2 t.s ++
  (if t.us = 0 then "" else "." ++ padZ 6 t.us)

/-- `strptime` date part `%Y-%m-%d` (4-digit year, 1-2 digit month/day with
range checks). -/
def parseYMD (s : String) : Option (Nat × Nat × Nat) :=
  match splitOnC '-' s with
  | [ys, ms, ds] =>
      match toNatC ys, toNatC ms, toNatC ds with
      | some y, some mo, some d =>
          if ys.length = 4 ∧ 1 ≤ ms.length ∧ ms.length ≤ 2 ∧ 1 ≤ ds.length ∧ ds.length ≤ 2
              ∧ 1 ≤ mo ∧ mo ≤ 12 ∧ 1 ≤ d ∧ d ≤ 31 then
            some (y, mo, d)
          else none
      | _, _, _ => none
  | _ => none

/-- `strptime` time part `%H:%M:%S`. -/
def parseHMS (s : String) : Option (Nat × Nat × Nat) :=
  match splitOnC ':' s with
  | [hs, ms, ss] =>
      match toNatC hs, toNatC ms, toNatC ss with
      | some h, some mi, some sec =>
          if 1 ≤ hs.length ∧ hs.length ≤ 2 ∧ 1 ≤ ms.length ∧ ms.length ≤ 2
              ∧ 1 ≤ ss.length ∧ ss.length ≤ 2 ∧ h ≤ 23 ∧ mi ≤ 59 ∧ sec ≤ 59 then
            some (h, mi, sec)
          else none
      | _, _, _ => none
  | _ => none

/-- `strptime(s, "%Y-%m-%dT%H:%M:%S.%fZ")`. -/
def strptimeIsoUsZ (s : String) : Option DTime :=
  if endsWithC s "Z" then
    match splitOnC 'T' (s.dropRight 1) with
    | [ds, ts] =>
        match splitOnC '.' ts with
        | [hms, frac] =>
            match parseYMD ds, parseHMS hms, toNatC frac with
            | some (y, mo, d), some (h, mi, sec), some fr =>
                if 1 ≤ frac.length ∧ frac.length ≤ 6 then
                  some ⟨y, mo, d, h, mi, sec, fr * 10 ^ (6 - frac.length)⟩
                else none
            | _, _, _ => none
        | _ => none
    | _ => none
  else none

/-- `strptime(s, "%Y-%m-%dT%H:%M:%SZ")`. -/
def strptimeIsoZ (s : String) : Option DTime :=
  if endsWithC s "Z" then
    match splitOnC 'T' (s.dropRight 1) with
    | [ds, ts] =>
        match parseYMD ds, parseHMS ts with
        | some (y, mo, d), some (h, mi, sec) => some ⟨y, mo, d, h, mi, sec, 0⟩
        | _, _ => none
    | _ => none
  else none

/-- `strptime(s, "%Y-%m-%d %H:%M:%S")`. -/
def strptimeSpace (s : String) : Option DTime :=
  match splitOnC ' ' s with
  | [ds, ts] =>
      match parseYMD ds, parseHMS ts with
      | some (y, mo, d), some (h, mi, sec) => some ⟨y, mo, d, h, mi, sec, 0⟩
      | _, _ => none
  | _ => none

/-- `strptime(s, "%Y-%m-%d")`. -/
def strptimeDate (s : String) : Option DTime :=
  (parseYMD s).map (fun (y, mo, d) => ⟨y, mo, d, 0, 0, 0, 0⟩)

/-- `_clean_job_data`'s format list, tried in order, first match wins
(scraper.py lines 388-401); the winner is re-rendered with `isoformat()`. -/
def tryFormatsIso (s : String) : Option String :=
  match strptimeIsoUsZ s with
  | some t => some (isoformat t)
  | none =>
    match strptimeIsoZ s with
    | some t => some (isoformat t)
    | none =>
      match strptimeSpace s with
      | some t => some (isoformat t)
      | none => (strptimeDate s).map isoformat

/-- Models the `dateparser.parse` collaborator used by `_validate_job` (line
489): only the success/failure split matters (failure replaces the value with
the current time). The model accepts the four explicit formats plus a bare
ISO date-time without the `Z` suffix. -/
def dateparserOk (s : String) : Bool :=
  (tryFormatsIso s).isSome ||
  (match splitOnC 'T' s with
   | [ds, ts] => (parseYMD ds).isSome &&
       (match splitOnC '.' ts with
        | [hms, frac] => (parseHMS hms).isSome && (toNatC frac).isSome
        | _ => (parseHMS ts).isSome)
   | _ => false)

/-- Opening brace character. -/
def obrace : Char := Char.ofNat 123

/-- Closing brace character. -/
def cbrace : Char := Char.ofNat 125

/-- Skip JSON whitespace. -/
def skipWs : List Char → List Char
  | c :: cs => if c = ' ' ∨ c = '\n' ∨ c = '\t' ∨ c = '\r' then skipWs cs else c :: cs
  | [] => []

/-- Parse the remainder of a JSON string literal (escapes unmodelled; none of
the inputs exercised contain them). -/
def parseStrLit (acc : List Char) : List Char → Option (String × List Char)
  | '"' :: rest => some (String.mk acc.reverse, rest)
  | '\\' :: _ => none
  | c :: rest => parseStrLit (c :: acc) rest
  | [] => none

/-- Parse a JSON integer literal. -/
def parseIntLit (cs : List Char) : Option (Int × List Char) :=
  match cs with
  | '-' :: rest =>
      let ds := rest.takeWhile Char.isDigit
      let rest' := rest.dropWhile Char.isDigit
      if ds.isEmpty then none
      else some (-(Int.ofNat (String.mk ds).toNat!), rest')
  | _ =>
      let ds := cs.takeWhile Char.isDigit
      let rest' := cs.dropWhile Char.isDigit
      if ds.isEmpty then none
      else some (Int.ofNat (String.mk ds).toNat!, rest')

mutual

/-- Fueled recursive-descent parser modelling `json.loads` on the JSON
fragment this code base feeds it (strings, integers, booleans, null, arrays,
objects). -/
def parseVal : Nat → List Char → Option (Val × List Char)
  | 0, _ => none
  | fuel + 1, cs =>
    match skipWs cs with
    | '"' :: rest => (parseStrLit [] rest).map (fun p => (.vstr p.1, p.2))
    | 'n' :: 'u' :: 'l' :: 'l' :: rest => some (.vnull, rest)
    | 't' :: 'r' :: 'u' :: 'e' :: rest => some (.vbool true, rest)
    | 'f' :: 'a' :: 'l' :: 's' :: 'e' :: rest => some (.vbool false, rest)
    | '[' :: rest =>
        (match skipWs rest with
         | ']' :: rest' => some (.vlist [], rest')
         | rest' => (parseElems fuel rest').map (fun p => (.vlist p.1, p.2)))
    | c :: rest =>
        if c = obrace then
          match skipWs rest with
          | c' :: rest' =>
              if c' = cbrace then some (.vdict [], rest')
              else (parseMembers fuel (c' :: rest')).map (fun p => (.vdict p.1, p.2))
          | [] => none
        else parseIntLit (c :: rest) |>.map (fun p => (.vnum p.1, p.2))
    | [] => none

/-- Parse one-or-more comma-separated JSON array elements up to `]`. -/
def parseElems : Nat → List Char → Option (List Val × List Char)
  | 0, _ => none
  | fuel + 1, cs =>
    match parseVal fuel cs with
    | some (v, rest) =>
        (match skipWs rest with
         | ',' :: rest' => (parseElems fuel rest').map (fun p => (v :: p.1, p.2))
         | ']' :: rest' => some ([v], rest')
         | _ => none)
    | none => none

/-- Parse one-or-more comma-separated JSON object members up to the closing
brace. -/
def parseMembers : Nat → List Char → Option (List (String × Val) × List Char)
  | 0, _ => none
  | fuel + 1, cs =>
    match skipWs cs with
    | '"' :: rest =>
        (match parseStrLit [] rest with
         | some (k, rest') =>
             (match skipWs rest' with
              | ':' :: rest'' =>
                  (match parseVal fuel rest'' with
                   | some (v, rest₃) =>
                       (match skipWs rest₃ with
                        | ',' :: rest₄ =>
                            (parseMembers fuel rest₄).map (fun p => ((k, v) :: p.1, p.2))
                        | c :: rest₄ =>
                            if c = cbrace then some ([(k, v)], rest₄) else none
                        | [] => none)
                   | none => none)
              | _ => none)
         | none => none)
    | _ => none

end

/-- Models `json.loads` over the whole input string. -/
def jsonLoads (s : String) : Option Val :=
  match parseVal (s.length + 1) s.toList with
  | some (v, rest) => if (skipWs rest).isEmpty then some v else none
  | none => none

/-- Python `float(x)` as used on salary min/max values: succeeds on numbers,
booleans, and integer-shaped strings (fractional strings are outside every
claim and are treated as unparseable). -/
def pyFloatInt : Val → Option Int
  | .vnum n => some n
  | .vbool b => some (if b then 1 else 0)
  | .vstr s =>
      let t := pyStrip s
      (match t.toList with
       | '-' :: rest => if rest ≠ [] ∧ rest.all Char.isDigit
           then some (-(Int.ofNat (String.mk rest).toNat!)) else none
       | cs => if cs ≠ [] ∧ cs.all Char.isDigit
           then some (Int.ofNat (String.mk cs).toNat!) else none)
  | _ => none

/-- The four text fields stripped by `_clean_job_data` (line 373). -/
def textFields : List String :=
  ["title", "company_name_fa", "company_name_en", "province_match_city"]

/-- One text-field cleaning step: if the field is present and truthy, strip a
string in place, or stringify-and-strip any other non-`None` value. -/
def cleanTextField (r : Rec) (f : String) : Rec :=
  match getV r f with
  | some v =>
      if truthy v then
        match v with
        | .vstr s => setV r f (.vstr (pyStrip s))
        | w => setV r f (.vstr (pyStrip (pyStr w)))
      else r
  | none => r

/-- `_clean_job_data` step 1: strip the text fields (lines 372-380). -/
def cleanText (r : Rec) : Rec :=
  textFields.foldl cleanTextField r

/-- `_clean_job_data` step 2: normalize `activationTime` through the ordered
format list, first success wins, re-rendered via `isoformat()`; a string no
format accepts is left as is (lines 382-403). -/
def cleanActivation (r : Rec) : Rec :=
  match getV r "activationTime" with
  | some v =>
      if truthy v then
        match v with
        | .vstr s =>
            (match tryFormatsIso s with
             | some iso => setV r "activationTime" (.vstr iso)
             | none => r)
        | _ => r
      else r
  | none => r

/-- `_clean_job_data` step 3: coerce `locations` to a list — `None` becomes
`[]`, a string is `json.loads`-parsed (wrapping it on parse failure), any
other non-list value is wrapped (lines 405-416). -/
def cleanLocations (r : Rec) : Rec :=
  match getV r "locations" with
  | some .vnull => setV r "locations" (.vlist [])
  | some (.vstr s) =>
      (match jsonLoads s with
       | some v => setV r "locations" v
       | none => setV r "locations" (.vlist [.vstr s]))
  | some (.vlist _) => r
  | some v => setV r "locations" (.vlist [v])
  | none => r

/-- `_clean_job_data` step 4a: a string salary is JSON-parsed, falling back
to `{"raw": s}` (lines 422-427). -/
def salaryParsed (v : Val) : Val :=
  match v with
  | .vstr s =>
      (match jsonLoads s with
       | some w => w
       | none => .vdict [("raw", .vstr s)])
  | w => w

/-- `_clean_job_data` step 4b: float min/max of a dict-shaped salary into
`normalize_salary_min`/`normalize_salary_max` (lines 430-442). -/
def salaryMinMax (r : Rec) (sd : Val) : Rec :=
  match sd with
  | .vdict kvs =>
      let r₁ :=
        (match getV kvs "min" with
         | some mv =>
             if truthy mv then
               (match pyFloatInt mv with
                | some x => setV r "normalize_salary_min" (.vnum x)
                | none => r)
             else r
         | none => r)
      (match getV kvs "max" with
       | some mv =>
           if truthy mv then
             (match pyFloatInt mv with
              | some x => setV r₁ "normalize_salary_max" (.vnum x)
              | none => r₁)
           else r₁
       | none => r₁)
  | _ => r

/-- `_clean_job_data` step 4: normalize `salary` — parse, extract min/max,
store the (possibly re-parsed) salary value back (lines 418-444). -/
def cleanSalary (r : Rec) : Rec :=
  match getV r "salary" with
  | some v =>
      if truthy v then
        setV (salaryMinMax r (salaryParsed v)) "salary" (salaryParsed v)
      else r
  | none => r

/-- `_clean_job_data` (lines 360-446): copy, then the four cleaning steps in
source order. -/
def cleanJobData (r : Rec) : Rec :=
  cleanSalary (cleanLocations (cleanActivation (cleanText r)))

/-- Is the field present with a non-`None` value (`field in job` and
`job[field] is not None`)? -/
def presentNotNone (r : Rec) (f : String) : Bool :=
  match getV r f with
  | none => false
  | some .vnull => false
  | some _ => true

/-- Is the field a string with non-whitespace content? -/
def strContent (r : Rec) (f : String) : Bool :=
  match getV r f with
  | some (.vstr s) => !(pyStrip s).isEmpty
  | _ => false

/-- `_validate_job` required-field loop (lines 458-470): `title`, `url`,
`locations` present and non-`None`; `title` and `url` non-empty strings. -/
def requiredOk (r : Rec) : Bool :=
  presentNotNone r "title" && strContent r "title" &&
  presentNotNone r "url" && strContent r "url" &&
  presentNotNone r "locations"

/-- `_validate_job` locations shape check (lines 472-481): list or string,
and a list must be non-empty. -/
def locationsOk (r : Rec) : Bool :=
  match getV r "locations" with
  | some (.vlist l) => !l.isEmpty
  | some (.vstr _) => true
  | some _ => false
  | none => true

/-- `_validate_job` activation-time repair (lines 483-497): a truthy string
the date parser rejects is replaced by the current time's isoformat. -/
def fixActivation (now : String) (r : Rec) : Rec :=
  match getV r "activationTime" with
  | some (.vstr s) =>
      if truthy (.vstr s) then
        if dateparserOk s then r else setV r "activationTime" (.vstr now)
      else r
  | _ => r

/-- `_validate_job` URL scheme repair (lines 499-507). -/
def fixUrlStr (s : String) : String :=
  if startsWithC s "http://" || startsWithC s "https://" then s
  else if !(startsWithC s "//") then "https://" ++ s
  else "https:" ++ s

/-- `_validate_job` URL repair applied to the record. -/
def fixUrl (r : Rec) : Rec :=
  match getV r "url" with
  | some (.vstr s) =>
      if startsWithC s "http://" || startsWithC s "https://" then r
      else setV r "url" (.vstr (fixUrlStr s))
  | _ => r

/-- `_validate_job` salary normalization (lines 509-530): all three condition
checks read the original value; `None`/blank becomes `""`, a dict without
`min`/`max`/`text` keys and any list are `json.dumps`-serialized. -/
def fixSalary (r : Rec) : Rec :=
  match getV r "salary" with
  | some v =>
      match v with
      | .vnull => setV r "salary" (.vstr "")
      | .vstr s => if (pyStrip s).isEmpty then setV r "salary" (.vstr "") else r
      | .vdict kvs =>
          if !(hasKey kvs "min" || hasKey kvs "max" || hasKey kvs "text") then
            setV r "salary" (.vstr (jsonDumps v))
          else r
      | .vlist _ => setV r "salary" (.vstr (jsonDumps v))
      | _ => r
  | none => r

/-- `_validate_job` description repair (lines 532-545): stringify a non-string
value, then truncate past 65535 characters. -/
def fixDescription (r : Rec) : Rec :=
  match getV r "description" with
  | some .vnull => r
  | some (.vstr s) =>
      if s.length > 65535 then setV r "description" (.vstr (s.take 65535)) else r
  | some v =>
      let s := pyStr v
      let r₁ := setV r "description" (.vstr s)
      if s.length > 65535 then setV r₁ "description" (.vstr (s.take 65535)) else r₁
  | none => r

/-- `_validate_job` source default (lines 547-553). -/
def fixSource (sourceName : String) (r : Rec) : Rec :=
  if !hasKey r "source" || !truthy (getD r "source" .vnull) then
    setV r "source" (.vstr sourceName)
  else r

/-- Python `str(job.get(f, ''))` as interpolated by the id-base f-string. -/
def strOfGet (r : Rec) (f : String) : String :=
  match getV r f with
  | some v => pyStr v
  | none => ""

/-- `_validate_job` id synthesis (lines 555-560): a missing or falsy id is
replaced by the md5 hex digest of `f"{title}-{url}"`. -/
def fixId (r : Rec) : Rec :=
  if !hasKey r "id" || !truthy (getD r "id" .vnull) then
    setV r "id" (.vstr (md5Hex (strOfGet r "title" ++ "-" ++ strOfGet r "url")))
  else r

/-- `_validate_job` (lines 448-562): the two rejection checks in source order,
then the in-place repairs in source order; returns the mutated record on
success, `none` where the source returns `False`. -/
def validateJob (now sourceName : String) (r : Rec) : Option Rec :=
  if !requiredOk r then none
  else if !locationsOk r then none
  else some (fixId (fixSource sourceName
    (fixDescription (fixSalary (fixUrl (fixActivation now r))))))

/-- The running state of the `process_jobs` loop: accepted records, the two
counters, and the seen-id dedup set (insertion order kept). -/
structure ProcState where
  processed : List Rec
  duplicates : Nat
  invalid : Nat
  seen : List Val

/-- One iteration of the `process_jobs` loop (lines 326-355): required-key
presence check (`id`, `title`, `activationTime` — key presence only), dedup on
the raw id value, then clean + validate. -/
def processStep (now sourceName : String) (s : ProcState) (job : Rec) : ProcState :=
  if !(hasKey job "id" && hasKey job "title" && hasKey job "activationTime") then
    { s with invalid := s.invalid + 1 }
  else if s.seen.any (fun x => valEq (getD job "id" .vnull) x) then
    { s with duplicates := s.duplicates + 1 }
  else
    match validateJob now sourceName (cleanJobData job) with
    | none =>
        { s with invalid := s.invalid + 1, seen := s.seen ++ [getD job "id" .vnull] }
    | some ok =>
        { s with processed := s.processed ++ [ok], seen := s.seen ++ [getD job "id" .vnull] }

/-- `process_jobs` (lines 308-358): fold the per-record step over the batch,
starting from empty accumulators. -/
def process_jobs (now sourceName : String) (jobs : List Rec) : ProcState :=
  jobs.foldl (processStep now sourceName) ⟨[], 0, 0, []⟩

/-- The identities of a processed batch (each record's `id` value). -/
def outIds (l : List Rec) : List Val :=
  l.map (fun r => getD r "id" .vnull)

/-- The title component fed into the synthesized-id digest: the record's
title after `_clean_job_data`'s text strip, rendered by the f-string. -/
def synthTitle (j : Rec) : String :=
  match getV j "title" with
  | some v => if truthy v then pyStrip (pyStr v) else pyStr v
  | none => ""

/-- The url component fed into the synthesized-id digest: the record's url
after `_validate_job`'s scheme repair, rendered by the f-string. -/
def synthUrl (j : Rec) : String :=
  match getV j "url" with
  | some (.vstr s) => fixUrlStr s
  | some v => pyStr v
  | none => ""

/-- The id-base string `f"{title}-{url}"` of `_validate_job` line 558, as a
function of the raw record's title and url alone. -/
def synthBase (j : Rec) : String :=
  synthTitle j ++ "-" ++ synthUrl j

/-- Is the record's identity missing or falsy (the id-synthesis trigger)? -/
def idMissing (j : Rec) : Bool :=
  match getV j "id" with
  | none => true
  | some v => !truthy v

/-- A fully valid scenario record with a per-index identity. -/
def scenarioValidRec (i : Nat) : Rec :=
  [("id", .vstr ("id" ++ toString i)), ("title", .vstr "Engineer"),
   ("activationTime", .vstr "2024-01-02"), ("url", .vstr "https://ex.com/1"),
   ("locations", .vlist [.vstr "Tehran"])]

/-- A scenario record missing its title. -/
def scenarioNoTitleRec (i : Nat) : Rec :=
  [("id", .vstr ("x" ++ toString i)), ("activationTime", .vstr "2024-01-02")]

/-- The spec's batch of 100 raw records: 92 valid with distinct identities,
5 repeats of the first identity, 3 records missing titles. -/
def scenarioBatch : List Rec :=
  (List.range 92).map scenarioValidRec ++
  (List.range 5).map (fun _ => scenarioValidRec 0) ++
  (List.range 3).map scenarioNoTitleRec

/-- A two-record batch in which the first record's id is empty (so its
identity is synthesized from title+url) and the second record's upstream id
equals that synthesized digest. -/
def collidingBatch : List Rec :=
  [[("id", .vstr ""), ("title", .vstr "t"),
    ("activationTime", .vstr "2024-01-02"), ("url", .vstr "https://u"),
    ("locations", .vlist [.vstr "L"])],
   [("id", .vstr (md5Hex "t-https://u")), ("title", .vstr "s"),
    ("activationTime", .vstr "2024-01-02"), ("url", .vstr "https://v"),
    ("locations", .vlist [.vstr "L"])]]

/-! ## PageFetcher: `fetch_jobs` (scraper.py lines 157-306) and
`job_stream` (lines 886-940) -/

/-- What the upstream produced for one HTTP attempt. -/
inductive HttpResponse where
  | status (code : Nat)
  | body (v : Val)
  | badJson

/-- How one `fetch_jobs` attempt ends, as seen by the tenacity wrapper. -/
inductive FetchStep where
  | ok (d : Option Val)
  | retryable

/-- First present field among the candidate listing-array names, in priority
order (lines 255-260). -/
def firstField : List String → Rec → Option Val
  | [], _ => none
  | f :: fs, kvs => if hasKey kvs f then some (getD kvs f .vnull) else firstField fs kvs

/-- Extract the job-posts array from `data['data']` trying the known field
names in order (lines 252-265). -/
def extractJobPosts (jobsData : Val) : Option Val :=
  match jobsData with
  | .vdict kvs => firstField ["jobPosts", "jobs", "items", "results"] kvs
  | _ => none

/-- One `fetch_jobs` attempt (lines 180-306, de-mangled): HTTP status ≥ 400
logs; `429` sleeps with jitter and `raise_for_status` raises (retryable);
`401` returns `None` before `raise_for_status` (no exception, hence no
tenacity retry, lines 220-223); other ≥ 400 raise (retryable). A 2xx body is
parsed: non-dict → `None`; an `error` key with status ≥ 400 raises
(retryable); a missing `data` key → `None`; otherwise the listings array is
extracted by candidate field names, `None` if no name matches, else the whole
parsed dict is returned. A JSON decode failure re-raises (retryable). -/
def fetchAttempt : HttpResponse → FetchStep
  | .status c => if c == 401 then .ok none else .retryable
  | .badJson => .retryable
  | .body v =>
      match v with
      | .vdict kvs =>
          if hasKey kvs "data" then
            match extractJobPosts (getD kvs "data" (.vdict [])) with
            | some _ => .ok (some (.vdict kvs))
            | none => .ok none
          else if hasKey kvs "error" then
            (match getV kvs "status" with
             | some (.vnum n) => if n ≥ 400 then .retryable else .ok none
             | _ => .ok none)
          else .ok none
      | _ => .ok none

/-- How the whole page fetch (tenacity-wrapped) ends. -/
inductive FetchOutcome where
  | result (d : Option Val)
  | exhausted

/-- The tenacity wrapper (lines 157-162): `stop_after_attempt(3)`, retrying
only `ClientError` / `TimeoutError` / `JSONDecodeError`. Returns the outcome
and the number of attempts issued, given each attempt's response. -/
def fetchRetryGo (att : Nat → HttpResponse) (i : Nat) : Nat → FetchOutcome × Nat
  | 0 => (.exhausted, 0)
  | remaining + 1 =>
      match fetchAttempt (att i) with
      | .ok d => (.result d, 1)
      | .retryable =>
          if remaining == 0 then (.exhausted, 1)
          else
            let r := fetchRetryGo att (i + 1) remaining
            (r.1, r.2 + 1)

/-- `fetch_jobs` with its retry decorator: at most 3 attempts. -/
def fetchJobsModel (att : Nat → HttpResponse) : FetchOutcome × Nat :=
  fetchRetryGo att 0 3

/-- `job_stream`'s listings extraction
`response_data.get("data", {}).get("jobPosts", [])` (line 917). -/
def streamJobs (data : Val) : List Val :=
  match data with
  | .vdict kvs =>
      (match getD kvs "data" (.vdict []) with
       | .vdict kvs₂ =>
           (match getD kvs₂ "jobPosts" (.vlist []) with
            | .vlist l => l
            | _ => [])
       | _ => [])
  | _ => []

/-- `has_next = response_data.get("data", {}).get("hasNextPage", False)`
(line 931), with Python truthiness. -/
def hasNext (data : Val) : Bool :=
  match data with
  | .vdict kvs =>
      (match getD kvs "data" (.vdict []) with
       | .vdict kvs₂ => truthy (getD kvs₂ "hasNextPage" (.vbool false))
       | _ => false)
  | _ => false

/-- The dict-shaped entries of the listings array (the records `process_jobs`
iterates; a non-dict entry would be counted invalid by its per-record
exception handler and contributes nothing to the yield). -/
def dictJobs (l : List Val) : List Rec :=
  l.filterMap (fun v => match v with | .vdict r => some r | _ => none)

/-- `page <= total_pages` where `total_pages = inf` when no ceiling is set
(lines 897-901). -/
def pageLE (p : Nat) (mp : Option Nat) : Bool :=
  match mp with
  | none => true
  | some m => p ≤ m

/-- `job_stream` (lines 886-940): request pages in increasing order starting
at 1; break when a fetch returns `None` or raises (caught at line 938), when
the extracted listings are empty, or when `hasNextPage` is falsy; stop the
loop when the page exceeds the optional ceiling. Returns (number of page
requests issued, the validated records yielded). Fuel bounds the unbounded
`while`; every theorem below supplies enough fuel. -/
def jobStream (pages : Nat → FetchOutcome) (now src : String) (maxPages : Option Nat) :
    Nat → Nat → Nat × List Rec
  | _, 0 => (0, [])
  | page, fuel + 1 =>
      if pageLE page maxPages then
        match pages page with
        | .exhausted => (1, [])
        | .result none => (1, [])
        | .result (some data) =>
            let jobs := streamJobs data
            if jobs.isEmpty then (1, [])
            else
              let processed := (process_jobs now src (dictJobs jobs)).processed
              if !hasNext data then (1, processed)
              else
                let r := jobStream pages now src maxPages (page + 1) fuel
                (r.1 + 1, processed ++ r.2)
      else (0, [])

/-- Does the loop break at this page (malformed/failed response, empty
listings, or falsy continuation flag)? -/
def stopAt (pages : Nat → FetchOutcome) (p : Nat) : Bool :=
  match pages p with
  | .exhausted => true
  | .result none => true
  | .result (some data) => (streamJobs data).isEmpty || !hasNext data

/-- Requests issued from page `p` onward when the first stopping page is
`pstar`: one per page up to `min pstar ceiling`. -/
def reqFrom (maxPages : Option Nat) (p pstar : Nat) : Nat :=
  match maxPages with
  | none => pstar + 1 - p
  | some m => min (pstar + 1 - p) (m + 1 - p)

/-- A well-formed page response for the spec's 3-page scenario: pages 1 and 2
carry one listing and `hasNextPage = true`, page 3 carries one listing and
`hasNextPage = false`. -/
def scenarioPages (p : Nat) : FetchOutcome :=
  if p < 3 then
    .result (some (.vdict [("data", .vdict
      [("jobPosts", .vlist [.vdict (scenarioValidRec p)]), ("hasNextPage", .vbool true)])]))
  else if p = 3 then
    .result (some (.vdict [("data", .vdict
      [("jobPosts", .vlist [.vdict (scenarioValidRec 3)]), ("hasNextPage", .vbool false)])]))
  else .result none

/-! ## IngestionQueue: `_produce_jobs` (lines 1115-1168) and
`_consume_jobs` (lines 1170-1270) -/

/-- A queue item: `some (batch, batch_id)` or the `(None, None)` sentinel. -/
abbrev QItem := Option (List Rec × String)

/-- The emergency dump file name `f"unqueued_jobs_{timestamp}.json"`
(line 1160). -/
def dumpFile (ts : String) : String :=
  "unqueued_jobs_" ++ ts ++ ".json"

/-- The producer loop (lines 1125-1168): accumulate stream jobs into batches
of `batchSize`, enqueue each full batch, enqueue the final partial batch,
then the sentinel. `failAfter = some k` injects the exception path after `k`
jobs have been consumed from the stream: the accumulated-but-unenqueued
records are dumped to the timestamp-keyed emergency file (when non-empty) and
the sentinel is still enqueued (line 1168). Returns (queue puts in order,
optional emergency dump as (file name, contents)). -/
def produceGo (bid ts : String) (batchSize : Nat) :
    List Rec → List Rec → Option Nat → List QItem × Option (String × List Rec)
  | [], cur, fa =>
      (match fa with
       | some 0 => ([none], if cur.isEmpty then none else some (dumpFile ts, cur))
       | _ => ((if cur.isEmpty then [] else [some (cur, bid)]) ++ [none], none))
  | j :: rest, cur, fa =>
      (match fa with
       | some 0 => ([none], if cur.isEmpty then none else some (dumpFile ts, cur))
       | some (k + 1) =>
           if (cur ++ [j]).length ≥ batchSize then
             let r := produceGo bid ts batchSize rest [] (some k)
             (some (cur ++ [j], bid) :: r.1, r.2)
           else produceGo bid ts batchSize rest (cur ++ [j]) (some k)
       | none =>
           if (cur ++ [j]).length ≥ batchSize then
             let r := produceGo bid ts batchSize rest [] none
             (some (cur ++ [j], bid) :: r.1, r.2)
           else produceGo bid ts batchSize rest (cur ++ [j]) none)

/-- `_produce_jobs`, from an empty accumulator. -/
def produceJobs (bid ts : String) (batchSize : Nat) (jobs : List Rec)
    (failAfter : Option Nat) : List QItem × Option (String × List Rec) :=
  produceGo bid ts batchSize jobs [] failAfter

/-- All records enqueued as batches, in order. -/
def joinedBatches (q : List QItem) : List Rec :=
  q.foldr (fun it acc => match it with | some (b, _) => b ++ acc | none => acc) []

/-- The records of an optional dump. -/
def dumpRecs (d : Option (String × List Rec)) : List Rec :=
  match d with
  | some (_, l) => l
  | none => []

/-- The consumer loop (lines 1179-1254): dequeue until the sentinel; each
batch is handed to `_process_jobs` (abstracted by `persist`); a zero result
counts as a consecutive error and `maxErr` consecutive errors stop the loop
early. Returns the batches processed, in order. -/
def consumeGo (persist : List Rec → Nat) (maxErr : Nat) :
    List QItem → Nat → List (List Rec)
  | [], _ => []
  | none :: _, _ => []
  | some (batch, _) :: rest, errs =>
      if persist batch > 0 then batch :: consumeGo persist maxErr rest 0
      else if errs + 1 ≥ maxErr then [batch]
      else batch :: consumeGo persist maxErr rest (errs + 1)

/-! ## PersistenceCoordinator: `_process_jobs` (lines 564-765)

The circuit-breaker variables `db_circuit_open` and
`consecutive_db_failures` are local variables of `_process_jobs`
(lines 582-584), re-initialized on every call; a run over batches is
therefore a stateless `map`. -/

/-- Outcome of one `db_manager.insert_jobs` attempt inside the retry loop. -/
inductive AttemptResult where
  | success (n : Nat)
  | connError
  | otherError

/-- Environment for one `_process_jobs` call. -/
structure BatchEnv where
  connected : Bool
  reconnectOk : Bool
  attempts : List AttemptResult
  fileOk : Bool

/-- The scraper configuration knobs `_process_jobs` reads. -/
structure ScraperCfg where
  dbEnabled : Bool
  threshold : Nat
  maxRetries : Nat
  saveFilesWithDb : Bool

/-- Observable result of one `_process_jobs` call. -/
structure BatchResult where
  returned : Nat
  dbAttempts : Nat
  circuitOpened : Bool
  fileWritten : Bool

/-- How the retry loop (lines 610-663) ends. -/
inductive DbLoopOutcome where
  | success (n : Nat)
  | failed

/-- The insert retry loop (lines 610-663): a success returns the count and
resets the consecutive-failure counter; a connection error increments both
`retries` and `consecutive_db_failures` and, when retries are exhausted, sets
`db_circuit_open` when the threshold is reached and re-raises; another
database error increments only `retries` and re-raises on exhaustion.
Returns (outcome, insert_jobs calls made, final consecutive count, whether
the circuit flag was set). -/
def dbRetryLoop (maxRetries threshold : Nat) :
    List AttemptResult → Nat → Nat → DbLoopOutcome × Nat × Nat × Bool
  | [], _, consecutive => (.failed, 0, consecutive, false)
  | a :: rest, retries, consecutive =>
      match a with
      | .success n => (.success n, 1, 0, false)
      | .connError =>
          if retries + 1 > maxRetries then
            (.failed, 1, consecutive + 1, decide (consecutive + 1 ≥ threshold))
          else
            let r := dbRetryLoop maxRetries threshold rest (retries + 1) (consecutive + 1)
            (r.1, r.2.1 + 1, r.2.2)
      | .otherError =>
          if retries + 1 > maxRetries then
            (.failed, 1, consecutive, false)
          else
            let r := dbRetryLoop maxRetries threshold rest (retries + 1) consecutive
            (r.1, r.2.1 + 1, r.2.2)

/-- The file phase (lines 670-688 and the outer handler 712-765): a
successful `save_batch` counts the whole batch when the database counted
nothing; a file failure with no database success raises into the outer
handler, which dumps and returns 0; a file failure after a database success
keeps the database count. Returns (returned count, file written). -/
def filePhase (n jobsLen : Nat) (fileOk : Bool) : Nat × Bool :=
  if fileOk then (if n = 0 then jobsLen else n, true)
  else if n = 0 then (0, false)
  else (n, false)

/-- `_process_jobs` for one batch of `jobsLen` jobs (lines 564-765):
empty batch → 0; with the database enabled and a connection available (after
an optional reconnect) run the retry loop — a successful insert with a
positive count returns early when file saving alongside the database is
disabled (lines 622-624), otherwise control falls through to the file phase;
a failed loop falls through to the file phase; without a connection the file
phase runs directly. `db_circuit_open` and `consecutive_db_failures` start at
`false`/`0` on every call. -/
def processBatch (cfg : ScraperCfg) (env : BatchEnv) (jobsLen : Nat) : BatchResult :=
  if jobsLen = 0 then ⟨0, 0, false, false⟩
  else if cfg.dbEnabled && (env.connected || env.reconnectOk) then
    match dbRetryLoop cfg.maxRetries cfg.threshold env.attempts 0 0 with
    | (.success n, used, _, _) =>
        if n > 0 && !cfg.saveFilesWithDb then ⟨n, used, false, false⟩
        else
          let f := filePhase n jobsLen env.fileOk
          ⟨f.1, used, false, f.2⟩
    | (.failed, used, _, opened) =>
        let f := filePhase 0 jobsLen env.fileOk
        ⟨f.1, used, opened, f.2⟩
  else
    let f := filePhase 0 jobsLen env.fileOk
    ⟨f.1, 0, false, f.2⟩

/-- A run's persistence of successive batches: a plain `map`, because the
source keeps no circuit-breaker state across `_process_jobs` calls. -/
def runBatches (cfg : ScraperCfg) (envs : List (BatchEnv × Nat)) : List BatchResult :=
  envs.map (fun e => processBatch cfg e.1 e.2)

/-! ## Lemmas about the staged merge -/

theorem hasId_eq_any_ids (t : List Row) (j : String) :
    hasId t j = (t.map Row.id).any (fun x => x == j) := by
  induction t with
  | nil => rfl
  | cons r t ih => simp [hasId, List.any_cons] at ih ⊢; rw [ih]

theorem ids_updateTable (now : Nat) (t : List Row) (i : String) (c : Rec) :
    (updateTable now t i c).map Row.id = t.map Row.id := by
  simp only [updateTable, List.map_map]
  apply List.map_congr_left
  intro r _
  by_cases h : r.id = i <;> simp [h]

theorem skel_updateTable (now : Nat) (t : List Row) (i : String) (c : Rec) :
    (updateTable now t i c).map (fun r => (r.id, r.created_at))
      = t.map (fun r => (r.id, r.created_at)) := by
  simp only [updateTable, List.map_map]
  apply List.map_congr_left
  intro r _
  by_cases h : r.id = i <;> simp [h]

theorem hasId_updateTable (now : Nat) (t : List Row) (i j : String) (c : Rec) :
    hasId (updateTable now t i c) j = hasId t j := by
  rw [hasId_eq_any_ids, hasId_eq_any_ids, ids_updateTable]

theorem hasId_mergeStep_mono (now : Nat) (acc : List Row × Nat × Nat) (p : String × Rec)
    (j : String) (h : hasId acc.1 j = true) : hasId (mergeStep now acc p).1 j = true := by
  obtain ⟨t, ins, upd⟩ := acc
  obtain ⟨i, c⟩ := p
  simp only [mergeStep]
  by_cases hp : hasId t i
  · simpa [hp, hasId_updateTable] using h
  · simp only [hp, Bool.false_eq_true, if_false]
    simp only [hasId, List.any_append, List.any_cons, List.any_nil] at h ⊢
    simp [h]

theorem hasId_mergeStep_self (now : Nat) (t : List Row) (ins upd : Nat) (i : String) (c : Rec) :
    hasId (mergeStep now (t, ins, upd) (i, c)).1 i = true := by
  simp only [mergeStep]
  by_cases hp : hasId t i
  · simpa [hp, hasId_updateTable] using hp
  · simp only [hp, Bool.false_eq_true, if_false]
    unfold hasId
    apply List.any_eq_true.mpr
    exact ⟨⟨i, c, now, now⟩, by simp, by simp⟩

theorem hasId_mergePairs_mono (now : Nat) (ps : List (String × Rec)) :
    ∀ (acc : List Row × Nat × Nat) (j : String), hasId acc.1 j = true →
      hasId (mergePairs now acc ps).1 j = true := by
  induction ps with
  | nil => intro acc j h; simpa [mergePairs] using h
  | cons p ps ih =>
      intro acc j h
      simp only [mergePairs]
      exact ih _ _ (hasId_mergeStep_mono now acc p j h)

theorem hasId_mergePairs_of_mem (now : Nat) (ps : List (String × Rec)) :
    ∀ (acc : List Row × Nat × Nat) (p : String × Rec), p ∈ ps →
      hasId (mergePairs now acc ps).1 p.1 = true := by
  induction ps with
  | nil => intro acc p h; simp at h
  | cons q ps ih =>
      intro acc p h
      rcases List.mem_cons.mp h with rfl | h
      · simp only [mergePairs]
        apply hasId_mergePairs_mono
        obtain ⟨t, ins, upd⟩ := acc
        exact hasId_mergeStep_self now t ins upd p.1 p.2
      · exact ih _ _ h

theorem ids_nodup_mergeStep (now : Nat) (t : List Row) (ins upd : Nat) (i : String) (c : Rec)
    (h : (t.map Row.id).Nodup) : ((mergeStep now (t, ins, upd) (i, c)).1.map Row.id).Nodup := by
  simp only [mergeStep]
  by_cases hp : hasId t i
  · simpa [hp, ids_updateTable] using h
  · simp only [hp, Bool.false_eq_true, if_false, List.map_append, List.map_cons, List.map_nil]
    rw [hasId_eq_any_ids] at hp
    have hnotmem : i ∉ t.map Row.id := by
      intro hmem
      have : (t.map Row.id).any (fun x => x == i) = true :=
        List.any_eq_true.mpr ⟨i, hmem, by simp⟩
      simp [this] at hp
    have hforall : ∀ x ∈ t, ¬x.id = i := fun x hx hxi =>
      hnotmem (hxi ▸ List.mem_map_of_mem Row.id hx)
    simpa [List.nodup_append] using ⟨h, hforall⟩

theorem ids_nodup_mergePairs (now : Nat) (ps : List (String × Rec)) :
    ∀ (acc : List Row × Nat × Nat), (acc.1.map Row.id).Nodup →
      ((mergePairs now acc ps).1.map Row.id).Nodup := by
  induction ps with
  | nil => intro acc h; simpa [mergePairs] using h
  | cons p ps ih =>
      intro acc h
      simp only [mergePairs]
      apply ih
      obtain ⟨t, ins, upd⟩ := acc
      obtain ⟨i, c⟩ := p
      exact ids_nodup_mergeStep now t ins upd i c h

theorem mergePairs_counts (now : Nat) (ps : List (String × Rec)) :
    ∀ (acc : List Row × Nat × Nat),
      (mergePairs now acc ps).2.1 + (mergePairs now acc ps).2.2
        = acc.2.1 + acc.2.2 + ps.length := by
  induction ps with
  | nil => intro acc; simp [mergePairs]
  | cons p ps ih =>
      intro acc
      obtain ⟨t, ins, upd⟩ := acc
      obtain ⟨i, c⟩ := p
      simp only [mergePairs]
      rw [ih]
      simp only [mergeStep]
      by_cases hp : hasId t i <;> simp [hp, List.length_cons] <;> omega

theorem mergePairs_no_insert (now : Nat) (ps : List (String × Rec)) :
    ∀ (acc : List Row × Nat × Nat), (∀ p ∈ ps, hasId acc.1 p.1 = true) →
      (mergePairs now acc ps).2.1 = acc.2.1 := by
  induction ps with
  | nil => intro acc _; simp [mergePairs]
  | cons p ps ih =>
      intro acc hpres
      obtain ⟨t, ins, upd⟩ := acc
      obtain ⟨i, c⟩ := p
      have hi : hasId t i = true := hpres (i, c) (List.mem_cons_self _ _)
      simp only [mergePairs, mergeStep, hi, if_true]
      rw [ih]
      intro q hq
      simpa [hasId_updateTable] using hpres q (List.mem_cons_of_mem _ hq)

theorem mergePairs_all_present_desc (now : Nat) (ps : List (String × Rec)) :
    ∀ (t : List Row) (ins upd : Nat), (ps.map Prod.fst).Nodup →
      (∀ p ∈ ps, hasId t p.1 = true) →
      (mergePairs now (t, ins, upd) ps).1
        = t.map (fun r =>
            match ps.find? (fun p => p.1 == r.id) with
            | some p => { r with cols := p.2, updated_at := now }
            | none => r) := by
  induction ps with
  | nil =>
      intro t ins upd _ _
      simp [mergePairs]
  | cons q ps ih =>
      intro t ins upd hnd hpres
      obtain ⟨i, c⟩ := q
      have hi : hasId t i = true := hpres (i, c) (List.mem_cons_self _ _)
      simp only [mergePairs, mergeStep, hi, if_true]
      rw [ih (updateTable now t i c) ins (upd + 1)
        (by simpa using (List.nodup_cons.mp (by simpa using hnd)).2)
        (by intro p hp
            simpa [hasId_updateTable] using hpres p (List.mem_cons_of_mem _ hp))]
      have hinotps : i ∉ ps.map Prod.fst := (List.nodup_cons.mp (by simpa using hnd)).1
      simp only [updateTable, List.map_map]
      apply List.map_congr_left
      intro r _
      by_cases h : r.id == i
      · have hrid : r.id = i := by simpa using h
        have hfind : ps.find? (fun p => p.1 == r.id) = none := by
          apply List.find?_eq_none.mpr
          intro p hp
          simp only [beq_iff_eq]
          intro hpeq
          exact hinotps (hrid ▸ hpeq ▸ List.mem_map_of_mem Prod.fst hp)
        simp only [Function.comp, h, if_true, List.find?_cons]
        have hhead : (i == r.id) = true := by simp [hrid]
        simp [hhead, hfind]
      · simp only [Function.comp, h, Bool.false_eq_true, if_false, List.find?_cons]
        have hhead : (i == r.id) = false := by
          by_contra hcon
          have : i = r.id := by
            have := Bool.not_eq_false (i == r.id) |>.mp hcon
            simpa using this
          simp [this] at h
        simp [hhead]

theorem stagedPairs_map_fst (staged : List StagedRow) :
    (stagedPairs staged).map Prod.fst = staged.filterMap StagedRow.id := by
  induction staged with
  | nil => rfl
  | cons s staged ih =>
      cases h : s.id <;> simp [stagedPairs, List.filterMap_cons, h] <;>
        simpa [stagedPairs] using ih

theorem stagedPairs_length (staged : List StagedRow)
    (hvalid : (staged.filterMap StagedRow.id).length = staged.length) :
    (stagedPairs staged).length = staged.length := by
  have := congrArg List.length (stagedPairs_map_fst staged)
  simpa [hvalid] using this

theorem mem_stagedPairs_of_id (staged : List StagedRow) (s : StagedRow) (i : String)
    (hs : s ∈ staged) (hid : s.id = some i) : (i, s.cols) ∈ stagedPairs staged := by
  apply List.mem_filterMap.mpr
  exact ⟨s, hs, by simp [hid]⟩

theorem mergeStaged_eq_some (now : Nat) (table : List Row) (staged : List StagedRow)
    (res : List Row × Nat × Nat) (hm : mergeStaged now table staged = some res) :
    ((staged.filterMap StagedRow.id).length = staged.length ∧
      (staged.filterMap StagedRow.id).Nodup) ∧
    res = mergePairs now (table, 0, 0) (stagedPairs staged) := by
  simp only [mergeStaged] at hm
  by_cases h : (staged.filterMap StagedRow.id).length = staged.length ∧
      (staged.filterMap StagedRow.id).Nodup
  · rw [if_pos h] at hm
    exact ⟨h, (Option.some.inj hm).symm⟩
  · rw [if_neg h] at hm
    cases hm

theorem insert_jobs_eq_of_success (env : InsEnv) (now : Nat) (jobs : List Rec)
    (batchId : String) (st : DbState) (T : List Row) (ins upd : Nat)
    (hne : jobs ≠ []) (hconn : env.connOk = true) (hdb : env.dbOk = true)
    (hm : mergeStaged now st.table (jobs.filterMap transformJob) = some (T, ins, upd)) :
    insert_jobs env now jobs batchId st =
      ({ table := T,
         events := st.events ++
           [.started batchId jobs.length,
            .completed batchId (jobs.filterMap transformJob).length] },
       (jobs.filterMap transformJob).length) := by
  have hje : jobs.isEmpty = false := by
    cases jobs with
    | nil => exact absurd rfl hne
    | cons a l => rfl
  simp [insert_jobs, hje, hconn, hdb, hm]

/-- C4: `insert_jobs(batch)` returns the affected count of the merge. For every
non-empty batch, when the connection is available and the database round-trips
succeed, the value returned equals the number of rows the
`ON CONFLICT (id) DO UPDATE` merge actually inserted plus the number it
updated in the primary table. (The source returns the staging-load count and
discards the merge command tag, but on every successful merge the two
coincide: each staged row affects exactly one primary row.) -/
theorem insert_jobs_returns_affected_count
    (env : InsEnv) (now : Nat) (jobs : List Rec) (batchId : String) (st : DbState)
    (T : List Row) (ins upd : Nat)
    (hne : jobs ≠ []) (hconn : env.connOk = true) (hdb : env.dbOk = true)
    (hm : mergeStaged now st.table (jobs.filterMap transformJob) = some (T, ins, upd)) :
    (insert_jobs env now jobs batchId st).2 = ins + upd := by
  obtain ⟨⟨hlen, _⟩, hres⟩ := mergeStaged_eq_some _ _ _ _ hm
  rw [insert_jobs_eq_of_success env now jobs batchId st T ins upd hne hconn hdb hm]
  have hcount := mergePairs_counts now (stagedPairs (jobs.filterMap transformJob))
    (st.table, 0, 0)
  have h2 : ins = (mergePairs now (st.table, 0, 0)
      (stagedPairs (jobs.filterMap transformJob))).2.1 := by rw [← hres]
  have h3 : upd = (mergePairs now (st.table, 0, 0)
      (stagedPairs (jobs.filterMap transformJob))).2.2 := by rw [← hres]
  have hplen := stagedPairs_length (jobs.filterMap transformJob) hlen
  simp only at hcount
  omega

/-- C4 witness: a concrete one-record batch is upserted into an empty table;
the merge inserts 1 row and updates 0, and `insert_jobs` returns 1. -/
theorem insert_jobs_returns_affected_count_witness :
    (insert_jobs ⟨true, true⟩ 5 [[("id", Val.vstr "7")]] "b" ⟨[], []⟩).2 = 1 := by
  have h := insert_jobs_returns_affected_count ⟨true, true⟩ 5 [[("id", Val.vstr "7")]]
    "b" ⟨[], []⟩ [⟨"7", [("id", Val.vstr "7")], 5, 5⟩] 1 0
    (List.cons_ne_nil _ _) rfl rfl rfl
  simpa using h

/-- C3: re-running the upsert with the identical batch is idempotent. With the
first merge's output table `T₁` and the second's `T₂` (same records, later
time `now₂`): the table keeps the same row ids with no duplicates (no new
rows), every row's `created_at` is unchanged, the second merge inserts zero
rows, and each conflicting row's `updated_at` is refreshed to `now₂`. -/
theorem upsert_idempotent
    (env : InsEnv) (now₁ now₂ : Nat) (jobs : List Rec) (batchId : String) (st : DbState)
    (T₁ T₂ : List Row) (i₁ u₁ i₂ u₂ : Nat)
    (hne : jobs ≠ []) (hconn : env.connOk = true) (hdb : env.dbOk = true)
    (hnodup : (st.table.map Row.id).Nodup)
    (hm₁ : mergeStaged now₁ st.table (jobs.filterMap transformJob) = some (T₁, i₁, u₁))
    (hm₂ : mergeStaged now₂ T₁ (jobs.filterMap transformJob) = some (T₂, i₂, u₂)) :
    (insert_jobs env now₁ jobs batchId st).1.table = T₁ ∧
    (insert_jobs env now₂ jobs batchId ((insert_jobs env now₁ jobs batchId st).1)).1.table = T₂ ∧
    T₂.map Row.id = T₁.map Row.id ∧
    (T₂.map Row.id).Nodup ∧
    T₂.map (fun r => (r.id, r.created_at)) = T₁.map (fun r => (r.id, r.created_at)) ∧
    i₂ = 0 ∧
    (∀ r ∈ T₂, (∃ s ∈ jobs.filterMap transformJob, s.id = some r.id) →
      r.updated_at = now₂) := by
  obtain ⟨⟨hlen, hnd⟩, hres₁⟩ := mergeStaged_eq_some _ _ _ _ hm₁
  obtain ⟨_, hres₂⟩ := mergeStaged_eq_some _ _ _ _ hm₂
  have hT₁ : T₁ = (mergePairs now₁ (st.table, 0, 0)
      (stagedPairs (jobs.filterMap transformJob))).1 := by rw [← hres₁]
  have hpairnd : ((stagedPairs (jobs.filterMap transformJob)).map Prod.fst).Nodup := by
    rw [stagedPairs_map_fst]; exact hnd
  have hpres : ∀ p ∈ stagedPairs (jobs.filterMap transformJob), hasId T₁ p.1 = true := by
    intro p hp
    rw [hT₁]
    exact hasId_mergePairs_of_mem now₁ _ _ p hp
  have hdesc : T₂ = T₁.map (fun r =>
      match (stagedPairs (jobs.filterMap transformJob)).find? (fun p => p.1 == r.id) with
      | some p => { r with cols := p.2, updated_at := now₂ }
      | none => r) := by
    have := mergePairs_all_present_desc now₂
      (stagedPairs (jobs.filterMap transformJob)) T₁ 0 0 hpairnd hpres
    rw [show T₂ = (mergePairs now₂ (T₁, 0, 0)
        (stagedPairs (jobs.filterMap transformJob))).1 from by rw [← hres₂]]
    exact this
  have hids : T₂.map Row.id = T₁.map Row.id := by
    rw [hdesc, List.map_map]
    apply List.map_congr_left
    intro r _
    cases hfd : (stagedPairs (jobs.filterMap transformJob)).find? (fun p => p.1 == r.id) <;>
      simp [Function.comp, hfd]
  refine ⟨?_, ?_, hids, ?_, ?_, ?_, ?_⟩
  · rw [insert_jobs_eq_of_success env now₁ jobs batchId st T₁ i₁ u₁ hne hconn hdb hm₁]
  · rw [insert_jobs_eq_of_success env now₁ jobs batchId st T₁ i₁ u₁ hne hconn hdb hm₁]
    rw [insert_jobs_eq_of_success env now₂ jobs batchId _ T₂ i₂ u₂ hne hconn hdb hm₂]
  · rw [hids, hT₁]
    exact ids_nodup_mergePairs now₁ _ _ hnodup
  · rw [hdesc, List.map_map]
    apply List.map_congr_left
    intro r _
    cases hfd : (stagedPairs (jobs.filterMap transformJob)).find? (fun p => p.1 == r.id) <;>
      simp [Function.comp, hfd]
  · have h2 : i₂ = (mergePairs now₂ (T₁, 0, 0)
        (stagedPairs (jobs.filterMap transformJob))).2.1 := by rw [← hres₂]
    rw [h2]
    exact mergePairs_no_insert now₂ _ _ hpres
  · intro r hr hex
    obtain ⟨s, hsmem, hsid⟩ := hex
    rw [hdesc] at hr
    obtain ⟨r₀, hr₀, hreq⟩ := List.mem_map.mp hr
    have hrid : r.id = r₀.id := by
      cases hfd : (stagedPairs (jobs.filterMap transformJob)).find? (fun p => p.1 == r₀.id) <;>
        rw [← hreq] <;> simp [hfd]
    have hpmem : (r.id, s.cols) ∈ stagedPairs (jobs.filterMap transformJob) :=
      mem_stagedPairs_of_id _ s r.id hsmem hsid
    have hfsome : ∃ q, (stagedPairs (jobs.filterMap transformJob)).find?
        (fun p => p.1 == r₀.id) = some q := by
      have : ((stagedPairs (jobs.filterMap transformJob)).find?
          (fun p => p.1 == r₀.id)).isSome = true := by
        rw [List.find?_isSome]
        exact ⟨(r.id, s.cols), hpmem, by simp [hrid]⟩
      exact Option.isSome_iff_exists.mp this
    obtain ⟨q, hq⟩ := hfsome
    rw [← hreq]
    simp [hq]

/-- C3 witness: one record with id "1" is merged at time 3 into an empty table
and again at time 9; the row keeps `created_at = 3` and gets `updated_at = 9`,
and no second row appears. -/
theorem upsert_idempotent_witness :
    (insert_jobs ⟨true, true⟩ 9 [[("id", Val.vstr "1")]] "b"
      ((insert_jobs ⟨true, true⟩ 3 [[("id", Val.vstr "1")]] "b" ⟨[], []⟩).1)).1.table
      = [⟨"1", [("id", Val.vstr "1")], 3, 9⟩] := by
  have h := upsert_idempotent ⟨true, true⟩ 3 9 [[("id", Val.vstr "1")]] "b" ⟨[], []⟩
    [⟨"1", [("id", Val.vstr "1")], 3, 3⟩] [⟨"1", [("id", Val.vstr "1")], 3, 9⟩] 1 0 0 1
    (List.cons_ne_nil _ _) rfl rfl (by simp) rfl rfl
  exact h.2.1

/-- C10: `insert_jobs` absorbs every failure into a `0` return value (the
embedding is a total function — no exception reaches the caller): an empty
batch returns 0 leaving the state untouched; an unavailable connection returns
0 without attempting anything; an internal database error records the batch as
failed (best effort) and returns 0 — so the return value alone cannot
distinguish an empty batch from a totally failed one. -/
theorem insert_jobs_error_paths
    (env : InsEnv) (now : Nat) (jobs : List Rec) (batchId : String) (st : DbState) :
    insert_jobs env now [] batchId st = (st, 0) ∧
    (env.connOk = false → insert_jobs env now jobs batchId st = (st, 0)) ∧
    (env.dbOk = false → jobs ≠ [] → env.connOk = true →
      insert_jobs env now jobs batchId st =
        ({ st with events := st.events ++ [.started batchId jobs.length, .failed batchId] }, 0)) ∧
    (env.dbOk = false →
      (insert_jobs env now jobs batchId st).2 = (insert_jobs env now [] batchId st).2) := by
  refine ⟨by simp [insert_jobs], ?_, ?_, ?_⟩
  · intro hc
    cases jobs with
    | nil => simp [insert_jobs]
    | cons a l => simp [insert_jobs, hc]
  · intro hdb hne hc
    have hje : jobs.isEmpty = false := by
      cases jobs with
      | nil => exact absurd rfl hne
      | cons a l => rfl
    simp [insert_jobs, hje, hc, hdb]
  · intro hdb
    cases jobs with
    | nil => simp [insert_jobs]
    | cons a l =>
        by_cases hc : env.connOk <;> simp [insert_jobs, hc, hdb]

/-- C10 witness: with no usable connection a one-record batch returns 0 with
the state untouched, exactly like the empty batch. -/
theorem insert_jobs_error_paths_witness :
    insert_jobs ⟨false, false⟩ 0 [[("id", Val.vstr "1")]] "b" ⟨[], []⟩ = (⟨[], []⟩, 0) ∧
    insert_jobs ⟨false, false⟩ 0 [] "b" ⟨[], []⟩ = (⟨[], []⟩, 0) := by
  have h := insert_jobs_error_paths ⟨false, false⟩ 0 [[("id", Val.vstr "1")]] "b" ⟨[], []⟩
  exact ⟨h.2.1 rfl, h.1⟩

end JobScraper

namespace JobScraper

/-! ## Lemmas about the record dictionary operations -/

theorem hasKey_eq_isSome (r : Rec) (k : String) : hasKey r k = (getV r k).isSome := by
  induction r with
  | nil => rfl
  | cons p r ih =>
      by_cases hp : p.1 = k <;> simp [hasKey, getV, hp, ih]

theorem getV_mapSet_self (r : Rec) (k : String) (v : Val) (hk : hasKey r k = true) :
    getV (r.map (fun p => if p.1 == k then (p.1, v) else p)) k = some v := by
  induction r with
  | nil => simp [hasKey] at hk
  | cons p r ih =>
      by_cases hp : p.1 = k
      · simp [getV, hp]
      · have hk' : hasKey r k = true := by
          simpa [hasKey, hp] using hk
        simpa [getV, hp] using ih hk'

theorem getV_mapSet_ne (r : Rec) (k k' : String) (v : Val) (h : k ≠ k') :
    getV (r.map (fun p => if p.1 == k then (p.1, v) else p)) k' = getV r k' := by
  induction r with
  | nil => rfl
  | cons p r ih =>
      by_cases hp : p.1 = k
      · have hne : ¬ p.1 = k' := fun hc => h (hp ▸ hc ▸ rfl)
        simpa [getV, hp, hne, h] using ih
      · by_cases hp' : p.1 = k'
        · have hks : ¬ (k' = k) := fun hc => h hc.symm
          simp [getV, hp, hp', hks]
        · simpa [getV, hp, hp'] using ih

theorem getV_append_single (r : Rec) (k k' : String) (v : Val) :
    getV (r ++ [(k, v)]) k'
      = match getV r k' with
        | some w => some w
        | none => if k = k' then some v else none := by
  induction r with
  | nil => by_cases hk : k = k' <;> simp [getV, hk]
  | cons p r ih =>
      by_cases hp : p.1 = k' <;> simp [getV, hp, ih]

theorem getV_setV_self (r : Rec) (k : String) (v : Val) :
    getV (setV r k v) k = some v := by
  unfold setV
  by_cases hk : hasKey r k
  · simp only [hk, if_true]
    exact getV_mapSet_self r k v hk
  · simp only [hk, Bool.false_eq_true, if_false]
    have hn : getV r k = none := by
      have := hasKey_eq_isSome r k
      rw [Bool.eq_false_iff.mpr hk] at this
      exact Option.not_isSome_iff_eq_none.mp (by rw [← this]; simp)
    rw [getV_append_single]
    simp [hn]

theorem getV_setV_ne (r : Rec) (k k' : String) (v : Val) (h : k ≠ k') :
    getV (setV r k v) k' = getV r k' := by
  unfold setV
  by_cases hk : hasKey r k
  · simp only [hk, if_true]
    exact getV_mapSet_ne r k k' v h
  · simp only [hk, Bool.false_eq_true, if_false]
    rw [getV_append_single]
    cases hg : getV r k' with
    | some w => simp
    | none => simp [h]

end JobScraper

namespace JobScraper

/-! ## Preservation lemmas for the cleaning and repair steps -/

theorem getV_cleanTextField_ne (r : Rec) (f k : String) (h : f ≠ k) :
    getV (cleanTextField r f) k = getV r k := by
  have e : ∀ (r' : Rec) v, getV (setV r' f v) k = getV r' k :=
    fun r' v => getV_setV_ne r' f k v h
  unfold cleanTextField
  repeat' split
  all_goals simp [e]

theorem getV_cleanTextField_self (r : Rec) (f : String) :
    getV (cleanTextField r f) f
      = match getV r f with
        | some v => if truthy v then some (.vstr (pyStrip (pyStr v))) else some v
        | none => none := by
  unfold cleanTextField
  cases hv : getV r f with
  | none => simp [hv]
  | some v =>
      by_cases ht : truthy v
      · cases v <;> simp [ht, getV_setV_self, pyStr] <;> simp [truthy] at ht
      · simp [ht, hv]

theorem getV_cleanText_ne (r : Rec) (k : String)
    (h1 : k ≠ "title") (h2 : k ≠ "company_name_fa")
    (h3 : k ≠ "company_name_en") (h4 : k ≠ "province_match_city") :
    getV (cleanText r) k = getV r k := by
  show getV (cleanTextField (cleanTextField (cleanTextField (cleanTextField r "title")
    "company_name_fa") "company_name_en") "province_match_city") k = getV r k
  rw [getV_cleanTextField_ne _ _ _ (Ne.symm h4), getV_cleanTextField_ne _ _ _ (Ne.symm h3),
    getV_cleanTextField_ne _ _ _ (Ne.symm h2), getV_cleanTextField_ne _ _ _ (Ne.symm h1)]

theorem getV_cleanText_title (r : Rec) :
    getV (cleanText r) "title"
      = match getV r "title" with
        | some v => if truthy v then some (.vstr (pyStrip (pyStr v))) else some v
        | none => none := by
  show getV (cleanTextField (cleanTextField (cleanTextField (cleanTextField r "title")
    "company_name_fa") "company_name_en") "province_match_city") "title" = _
  rw [getV_cleanTextField_ne _ _ _ (by decide), getV_cleanTextField_ne _ _ _ (by decide),
    getV_cleanTextField_ne _ _ _ (by decide), getV_cleanTextField_self]

theorem getV_cleanActivation_ne (r : Rec) (k : String) (h : k ≠ "activationTime") :
    getV (cleanActivation r) k = getV r k := by
  have e : ∀ (r' : Rec) v, getV (setV r' "activationTime" v) k = getV r' k :=
    fun r' v => getV_setV_ne r' _ k v (Ne.symm h)
  unfold cleanActivation
  repeat' split
  all_goals simp [e]

theorem getV_cleanLocations_ne (r : Rec) (k : String) (h : k ≠ "locations") :
    getV (cleanLocations r) k = getV r k := by
  have e : ∀ (r' : Rec) v, getV (setV r' "locations" v) k = getV r' k :=
    fun r' v => getV_setV_ne r' _ k v (Ne.symm h)
  unfold cleanLocations
  repeat' split
  all_goals simp [e]

theorem getV_salaryMinMax_ne (r : Rec) (sd : Val) (k : String)
    (h2 : k ≠ "normalize_salary_min") (h3 : k ≠ "normalize_salary_max") :
    getV (salaryMinMax r sd) k = getV r k := by
  have e2 : ∀ (r' : Rec) v, getV (setV r' "normalize_salary_min" v) k = getV r' k :=
    fun r' v => getV_setV_ne r' _ k v (Ne.symm h2)
  have e3 : ∀ (r' : Rec) v, getV (setV r' "normalize_salary_max" v) k = getV r' k :=
    fun r' v => getV_setV_ne r' _ k v (Ne.symm h3)
  unfold salaryMinMax
  repeat' split
  all_goals simp [e2, e3]

theorem getV_cleanSalary_ne (r : Rec) (k : String) (h1 : k ≠ "salary")
    (h2 : k ≠ "normalize_salary_min") (h3 : k ≠ "normalize_salary_max") :
    getV (cleanSalary r) k = getV r k := by
  have e1 : ∀ (r' : Rec) v, getV (setV r' "salary" v) k = getV r' k :=
    fun r' v => getV_setV_ne r' _ k v (Ne.symm h1)
  unfold cleanSalary
  repeat' split
  all_goals simp [e1, getV_salaryMinMax_ne _ _ _ h2 h3]

theorem getV_cleanJobData_id (r : Rec) :
    getV (cleanJobData r) "id" = getV r "id" := by
  unfold cleanJobData
  rw [getV_cleanSalary_ne _ _ (by decide) (by decide) (by decide),
    getV_cleanLocations_ne _ _ (by decide), getV_cleanActivation_ne _ _ (by decide),
    getV_cleanText_ne _ _ (by decide) (by decide) (by decide) (by decide)]

theorem getV_cleanJobData_url (r : Rec) :
    getV (cleanJobData r) "url" = getV r "url" := by
  unfold cleanJobData
  rw [getV_cleanSalary_ne _ _ (by decide) (by decide) (by decide),
    getV_cleanLocations_ne _ _ (by decide), getV_cleanActivation_ne _ _ (by decide),
    getV_cleanText_ne _ _ (by decide) (by decide) (by decide) (by decide)]

theorem getV_cleanJobData_title (r : Rec) :
    getV (cleanJobData r) "title"
      = match getV r "title" with
        | some v => if truthy v then some (.vstr (pyStrip (pyStr v))) else some v
        | none => none := by
  unfold cleanJobData
  rw [getV_cleanSalary_ne _ _ (by decide) (by decide) (by decide),
    getV_cleanLocations_ne _ _ (by decide), getV_cleanActivation_ne _ _ (by decide),
    getV_cleanText_title]

theorem getV_fixActivation_ne (now : String) (r : Rec) (k : String)
    (h : k ≠ "activationTime") :
    getV (fixActivation now r) k = getV r k := by
  have e : ∀ (r' : Rec) v, getV (setV r' "activationTime" v) k = getV r' k :=
    fun r' v => getV_setV_ne r' _ k v (Ne.symm h)
  unfold fixActivation
  repeat' split
  all_goals simp [e]

theorem getV_fixUrl_ne (r : Rec) (k : String) (h : k ≠ "url") :
    getV (fixUrl r) k = getV r k := by
  have e : ∀ (r' : Rec) v, getV (setV r' "url" v) k = getV r' k :=
    fun r' v => getV_setV_ne r' _ k v (Ne.symm h)
  unfold fixUrl
  repeat' split
  all_goals simp [e]

theorem getV_fixUrl_url (r : Rec) :
    getV (fixUrl r) "url"
      = match getV r "url" with
        | some (.vstr s) => some (.vstr (fixUrlStr s))
        | x => x := by
  unfold fixUrl
  cases hv : getV r "url" with
  | none => simp [hv]
  | some v =>
      cases v <;> try simp [hv]
      case vstr s =>
        by_cases hs0 : (startsWithC s "http://" || startsWithC s "https://") = true
        · have hor : startsWithC s "http://" = true ∨ startsWithC s "https://" = true := by
            simpa using hs0
          rcases hor with h | h <;> simp [h, hv, fixUrlStr]
        · have hand : startsWithC s "http://" = false ∧ startsWithC s "https://" = false := by
            constructor <;> (rw [Bool.eq_false_iff]; intro hc; exact hs0 (by simp [hc]))
          simp [hand.1, hand.2, getV_setV_self]

theorem getV_fixSalary_ne (r : Rec) (k : String) (h : k ≠ "salary") :
    getV (fixSalary r) k = getV r k := by
  have e : ∀ (r' : Rec) v, getV (setV r' "salary" v) k = getV r' k :=
    fun r' v => getV_setV_ne r' _ k v (Ne.symm h)
  unfold fixSalary
  repeat' split
  all_goals simp [e]

theorem getV_fixDescription_ne (r : Rec) (k : String) (h : k ≠ "description") :
    getV (fixDescription r) k = getV r k := by
  have e : ∀ (r' : Rec) v, getV (setV r' "description" v) k = getV r' k :=
    fun r' v => getV_setV_ne r' _ k v (Ne.symm h)
  unfold fixDescription
  cases hv : getV r "description" with
  | none => rfl
  | some v =>
      rcases v with _ | b | n | s | l | d <;> dsimp only <;>
        first
          | rfl
          | (split <;> simp [e])

theorem getV_fixSource_ne (src : String) (r : Rec) (k : String) (h : k ≠ "source") :
    getV (fixSource src r) k = getV r k := by
  have e : ∀ (r' : Rec) v, getV (setV r' "source" v) k = getV r' k :=
    fun r' v => getV_setV_ne r' _ k v (Ne.symm h)
  unfold fixSource
  repeat' split
  all_goals simp [e]

theorem fixId_of_present (r : Rec) (v : Val) (hid : getV r "id" = some v)
    (ht : truthy v = true) : fixId r = r := by
  unfold fixId
  have hk : hasKey r "id" = true := by rw [hasKey_eq_isSome, hid]; rfl
  have hg : getD r "id" .vnull = v := by simp [getD, hid]
  simp [hk, hg, ht]

theorem fixId_of_missing (r : Rec) (hm : idMissing r = true) :
    fixId r = setV r "id"
      (.vstr (md5Hex (strOfGet r "title" ++ "-" ++ strOfGet r "url"))) := by
  unfold fixId
  unfold idMissing at hm
  cases hid : getV r "id" with
  | none =>
      have hk : hasKey r "id" = false := by rw [hasKey_eq_isSome, hid]; rfl
      simp [hk]
  | some v =>
      rw [hid] at hm
      have hk : hasKey r "id" = true := by rw [hasKey_eq_isSome, hid]; rfl
      have hg : getD r "id" .vnull = v := by simp [getD, hid]
      simp only [hk, hg, Bool.not_true, Bool.false_or]
      simp only [Bool.not_eq_true'] at hm
      simp [hm]

theorem validateJob_eq_some (now src : String) (r o : Rec)
    (hv : validateJob now src r = some o) :
    requiredOk r = true ∧ locationsOk r = true ∧
    o = fixId (fixSource src (fixDescription (fixSalary (fixUrl (fixActivation now r))))) := by
  unfold validateJob at hv
  by_cases h1 : requiredOk r
  · by_cases h2 : locationsOk r
    · refine ⟨h1, h2, ?_⟩
      simp only [h1, h2, Bool.not_true, Bool.false_eq_true, if_false,
        Option.some.injEq] at hv
      exact hv.symm
    · rw [Bool.eq_false_iff.mpr h2] at hv
      simp [h1] at hv
  · rw [Bool.eq_false_iff.mpr h1] at hv
    simp at hv

end JobScraper

namespace JobScraper

/-! ## Identity tracking through the validation pipeline -/

theorem getV_pipeline_id (now src : String) (r : Rec) :
    getV (fixSource src (fixDescription (fixSalary (fixUrl (fixActivation now r))))) "id"
      = getV r "id" := by
  rw [getV_fixSource_ne _ _ _ (by decide), getV_fixDescription_ne _ _ (by decide),
    getV_fixSalary_ne _ _ (by decide), getV_fixUrl_ne _ _ (by decide),
    getV_fixActivation_ne _ _ _ (by decide)]

theorem getV_pipeline_title (now src : String) (r : Rec) :
    getV (fixSource src (fixDescription (fixSalary (fixUrl (fixActivation now r))))) "title"
      = getV r "title" := by
  rw [getV_fixSource_ne _ _ _ (by decide), getV_fixDescription_ne _ _ (by decide),
    getV_fixSalary_ne _ _ (by decide), getV_fixUrl_ne _ _ (by decide),
    getV_fixActivation_ne _ _ _ (by decide)]

theorem getV_pipeline_url (now src : String) (r : Rec) :
    getV (fixSource src (fixDescription (fixSalary (fixUrl (fixActivation now r))))) "url"
      = match getV r "url" with
        | some (.vstr s) => some (.vstr (fixUrlStr s))
        | x => x := by
  rw [getV_fixSource_ne _ _ _ (by decide), getV_fixDescription_ne _ _ (by decide),
    getV_fixSalary_ne _ _ (by decide), getV_fixUrl_url,
    getV_fixActivation_ne _ _ _ (by decide)]

theorem validateJob_id_of_missing (now src : String) (j o : Rec)
    (hm : idMissing j = true)
    (hv : validateJob now src (cleanJobData j) = some o) :
    getV o "id" = some (.vstr (md5Hex (synthBase j))) := by
  obtain ⟨hreq, hloc, ho⟩ := validateJob_eq_some _ _ _ _ hv
  have hidc : getV (cleanJobData j) "id" = getV j "id" := getV_cleanJobData_id j
  have hidp : getV (fixSource src (fixDescription (fixSalary (fixUrl
      (fixActivation now (cleanJobData j)))))) "id" = getV j "id" := by
    rw [getV_pipeline_id]; exact hidc
  have hmp : idMissing (fixSource src (fixDescription (fixSalary (fixUrl
      (fixActivation now (cleanJobData j)))))) = true := by
    unfold idMissing at hm ⊢
    rw [hidp]
    exact hm
  have h1 : strOfGet (fixSource src (fixDescription (fixSalary (fixUrl
      (fixActivation now (cleanJobData j)))))) "title" = synthTitle j := by
    unfold strOfGet synthTitle
    rw [getV_pipeline_title, getV_cleanJobData_title]
    cases hjt : getV j "title" with
    | none => rfl
    | some v => by_cases ht : truthy v <;> simp [ht, pyStr]
  have h2 : strOfGet (fixSource src (fixDescription (fixSalary (fixUrl
      (fixActivation now (cleanJobData j)))))) "url" = synthUrl j := by
    unfold strOfGet synthUrl
    rw [getV_pipeline_url, getV_cleanJobData_url]
    cases hju : getV j "url" with
    | none => rfl
    | some v => cases v <;> simp [pyStr]
  rw [ho, fixId_of_missing _ hmp, getV_setV_self, h1, h2]
  rfl

theorem validateJob_preserves_truthy_id (now src : String) (j o : Rec) (v : Val)
    (hid : getV j "id" = some v) (ht : truthy v = true)
    (hv : validateJob now src (cleanJobData j) = some o) :
    getV o "id" = some v := by
  obtain ⟨_, _, ho⟩ := validateJob_eq_some _ _ _ _ hv
  have hidp : getV (fixSource src (fixDescription (fixSalary (fixUrl
      (fixActivation now (cleanJobData j)))))) "id" = some v := by
    rw [getV_pipeline_id, getV_cleanJobData_id]; exact hid
  rw [ho, fixId_of_present _ v hidp ht, hidp]

/-! ## `process_jobs` classification -/

theorem processStep_measure (now src : String) (s : ProcState) (j : Rec) :
    (processStep now src s j).processed.length + (processStep now src s j).duplicates
      + (processStep now src s j).invalid
      = s.processed.length + s.duplicates + s.invalid + 1 := by
  unfold processStep
  cases hc1 : (!(hasKey j "id" && hasKey j "title" && hasKey j "activationTime"))
  · rw [if_neg (by simp [hc1])]
    cases hc2 : s.seen.any (fun x => valEq (getD j "id" Val.vnull) x)
    · rw [if_neg (by simp [hc2])]
      cases hv : validateJob now src (cleanJobData j) <;> simp <;> omega
    · rw [if_pos (by simp [hc2])]
      simp
      omega
  · rw [if_pos (by simp [hc1])]
    simp
    omega

theorem process_jobs_partition_aux (now src : String) (jobs : List Rec) :
    ∀ s : ProcState,
      (jobs.foldl (processStep now src) s).processed.length
        + (jobs.foldl (processStep now src) s).duplicates
        + (jobs.foldl (processStep now src) s).invalid
      = s.processed.length + s.duplicates + s.invalid + jobs.length := by
  induction jobs with
  | nil => intro s; simp
  | cons j jobs ih =>
      intro s
      simp only [List.foldl_cons, List.length_cons]
      rw [ih]
      have := processStep_measure now src s j
      omega

theorem process_jobs_nodup_aux (now src : String) :
    ∀ (jobs : List Rec) (s : ProcState),
      (∀ j ∈ jobs, ∃ str, getV j "id" = some (.vstr str) ∧ truthy (.vstr str) = true) →
      (∀ r ∈ s.processed, getD r "id" .vnull ∈ s.seen) →
      (outIds s.processed).Nodup →
      (∀ r ∈ (jobs.foldl (processStep now src) s).processed,
          getD r "id" .vnull ∈ (jobs.foldl (processStep now src) s).seen) ∧
      (outIds (jobs.foldl (processStep now src) s).processed).Nodup := by
  intro jobs
  induction jobs with
  | nil => intro s _ h1 h2; exact ⟨h1, h2⟩
  | cons j jobs ih =>
      intro s hid h1 h2
      obtain ⟨str, hjid, htruthy⟩ := hid j (List.mem_cons_self _ _)
      have hidrest : ∀ j' ∈ jobs, ∃ str, getV j' "id" = some (.vstr str) ∧
          truthy (.vstr str) = true :=
        fun j' hj' => hid j' (List.mem_cons_of_mem _ hj')
      have hgd : getD j "id" .vnull = .vstr str := by simp [getD, hjid]
      simp only [List.foldl_cons]
      unfold processStep
      split
      · exact ih _ hidrest h1 h2
      · split
        · exact ih _ hidrest h1 h2
        · rename_i hkeys hdup
          split
          · apply ih _ hidrest
            · intro r hr
              exact List.mem_append_left _ (h1 r hr)
            · exact h2
          · rename_i ok hok
            have hokid : getD ok "id" .vnull = .vstr str := by
              have := validateJob_preserves_truthy_id now src j ok (.vstr str) hjid htruthy hok
              simp [getD, this]
            apply ih _ hidrest
            · intro r hr
              rcases List.mem_append.mp hr with hr | hr
              · exact List.mem_append_left _ (h1 r hr)
              · have hreq : r = ok := by simpa using hr
                subst hreq
                apply List.mem_append_right
                simp [hokid, hgd]
            · have hnotin : (Val.vstr str) ∉ outIds s.processed := by
                intro hmem
                obtain ⟨r, hr, hrid⟩ := List.mem_map.mp hmem
                have hseen := h1 r hr
                rw [hrid] at hseen
                have hany : s.seen.any (fun x => valEq (getD j "id" .vnull) x) = true := by
                  apply List.any_eq_true.mpr
                  refine ⟨.vstr str, hseen, ?_⟩
                  rw [hgd]
                  simp [valEq]
                exact hdup hany
              have hout : outIds (s.processed ++ [ok]) = outIds s.processed ++ [.vstr str] := by
                simp [outIds, hokid]
              rw [hout]
              refine List.Nodup.append h2 (List.nodup_singleton _) ?_
              intro a ha ha'
              have : a = Val.vstr str := by simpa using ha'
              exact hnotin (this ▸ ha)

end JobScraper

namespace JobScraper

/-- C5 (amended): `process_jobs` classifies each input record exactly once
(validated + duplicates + invalid = input length); when every input record
carries a truthy upstream string identity the returned records' identities are
pairwise distinct (when identities are synthesized, a digest may collide with
an upstream id — see the counterexample); and the spec's concrete scenario of
100 records with 5 in-batch duplicate identities and 3 missing titles yields
exactly 92 validated records with counters duplicates = 5, invalid = 3. -/
theorem process_jobs_classification (now src : String) (jobs : List Rec) :
    ((process_jobs now src jobs).processed.length + (process_jobs now src jobs).duplicates
        + (process_jobs now src jobs).invalid = jobs.length) ∧
    ((∀ j ∈ jobs, ∃ s, getV j "id" = some (.vstr s) ∧ truthy (.vstr s) = true) →
      (outIds (process_jobs now src jobs).processed).Nodup) ∧
    ((process_jobs "2024-06-01T00:00:00" "api_scraper" scenarioBatch).processed.length = 92 ∧
      (process_jobs "2024-06-01T00:00:00" "api_scraper" scenarioBatch).duplicates = 5 ∧
      (process_jobs "2024-06-01T00:00:00" "api_scraper" scenarioBatch).invalid = 3) := by
  refine ⟨?_, ?_, rfl, rfl, rfl⟩
  · have h := process_jobs_partition_aux now src jobs ⟨[], 0, 0, []⟩
    simpa [process_jobs] using h
  · intro h
    exact (process_jobs_nodup_aux now src jobs ⟨[], 0, 0, []⟩ h
      (by intro r hr; simp at hr) (by simp [outIds])).2

/-- C5 witness: a concrete two-record batch with distinct truthy string ids
is classified 2/0/0 and its output identities are pairwise distinct. -/
theorem process_jobs_classification_witness :
    ((process_jobs "2024-06-01T00:00:00" "api_scraper"
        [scenarioValidRec 1, scenarioValidRec 2]).processed.length
      + (process_jobs "2024-06-01T00:00:00" "api_scraper"
        [scenarioValidRec 1, scenarioValidRec 2]).duplicates
      + (process_jobs "2024-06-01T00:00:00" "api_scraper"
        [scenarioValidRec 1, scenarioValidRec 2]).invalid = 2) ∧
    (outIds (process_jobs "2024-06-01T00:00:00" "api_scraper"
        [scenarioValidRec 1, scenarioValidRec 2]).processed).Nodup := by
  have h := process_jobs_classification "2024-06-01T00:00:00" "api_scraper"
    [scenarioValidRec 1, scenarioValidRec 2]
  refine ⟨h.1, h.2.1 ?_⟩
  intro j hj
  rcases List.mem_cons.mp hj with rfl | hj
  · exact ⟨"id1", rfl, rfl⟩
  · rcases List.mem_cons.mp hj with rfl | hj
    · exact ⟨"id2", rfl, rfl⟩
    · simp at hj

/-- C5 counterexample: on `collidingBatch` both records are validated, yet the
two returned records carry the same identity — the synthesized digest of the
first record equals the upstream-assigned id of the second — so the returned
records do not have pairwise-distinct identities as the claim states. -/
theorem process_jobs_distinct_ids_counterexample :
    ((process_jobs "2024-06-01T00:00:00" "api_scraper" collidingBatch).processed.length = 2) ∧
    ¬ (outIds (process_jobs "2024-06-01T00:00:00" "api_scraper"
        collidingBatch).processed).Nodup := by
  constructor
  · rfl
  · intro h
    rw [show outIds (process_jobs "2024-06-01T00:00:00" "api_scraper"
        collidingBatch).processed
      = [.vstr (md5Hex "t-https://u"), .vstr (md5Hex "t-https://u")] from rfl] at h
    simp at h

/-- C8: for a record whose identity is missing or empty, normalization
synthesizes the identity as the digest of title+url: the result is
`md5Hex (synthBase j)` where `synthBase` depends only on the record's title
and url; two normalization runs (with different current-time and source-name
parameters) produce the same identity, and any record agreeing on title and
url receives the same identity. -/
theorem normalization_id_deterministic (now₁ src₁ now₂ src₂ : String) (j o₁ o₂ : Rec)
    (hm : idMissing j = true)
    (h₁ : validateJob now₁ src₁ (cleanJobData j) = some o₁)
    (h₂ : validateJob now₂ src₂ (cleanJobData j) = some o₂) :
    getV o₁ "id" = some (.vstr (md5Hex (synthBase j))) ∧
    getV o₂ "id" = getV o₁ "id" ∧
    (∀ (now₃ src₃ : String) (j' o₃ : Rec), getV j' "title" = getV j "title" →
      getV j' "url" = getV j "url" → idMissing j' = true →
      validateJob now₃ src₃ (cleanJobData j') = some o₃ →
      getV o₃ "id" = getV o₁ "id") := by
  have e₁ := validateJob_id_of_missing now₁ src₁ j o₁ hm h₁
  have e₂ := validateJob_id_of_missing now₂ src₂ j o₂ hm h₂
  refine ⟨e₁, by rw [e₁, e₂], ?_⟩
  intro now₃ src₃ j' o₃ ht hu hm' h₃
  have e₃ := validateJob_id_of_missing now₃ src₃ j' o₃ hm' h₃
  rw [e₁, e₃]
  have hb : synthBase j' = synthBase j := by
    unfold synthBase synthTitle synthUrl
    rw [ht, hu]
  rw [hb]

/-- C8 witness: a concrete record with an empty id, normalized twice with
different current times and source names, gets the same synthesized identity
both times. -/
theorem normalization_id_deterministic_witness :
    getV [("id", Val.vstr "13b99f97a053b706161ea"), ("title", Val.vstr "T"),
        ("activationTime", Val.vstr "2024-01-02T00:00:00"), ("url", Val.vstr "https://u"),
        ("locations", Val.vlist [Val.vstr "L"]), ("source", Val.vstr "SRC1")] "id"
      = some (.vstr (md5Hex (synthBase
          [("id", Val.vstr ""), ("title", Val.vstr "T"),
           ("activationTime", Val.vstr "2024-01-02"), ("url", Val.vstr "https://u"),
           ("locations", Val.vlist [Val.vstr "L"])]))) ∧
    getV [("id", Val.vstr "13b99f97a053b706161ea"), ("title", Val.vstr "T"),
        ("activationTime", Val.vstr "2024-01-02T00:00:00"), ("url", Val.vstr "https://u"),
        ("locations", Val.vlist [Val.vstr "L"]), ("source", Val.vstr "SRC2")] "id"
      = getV [("id", Val.vstr "13b99f97a053b706161ea"), ("title", Val.vstr "T"),
        ("activationTime", Val.vstr "2024-01-02T00:00:00"), ("url", Val.vstr "https://u"),
        ("locations", Val.vlist [Val.vstr "L"]), ("source", Val.vstr "SRC1")] "id" := by
  have h := normalization_id_deterministic "NOW1" "SRC1" "NOW2" "SRC2"
    [("id", Val.vstr ""), ("title", Val.vstr "T"),
     ("activationTime", Val.vstr "2024-01-02"), ("url", Val.vstr "https://u"),
     ("locations", Val.vlist [Val.vstr "L"])]
    [("id", Val.vstr "13b99f97a053b706161ea"), ("title", Val.vstr "T"),
     ("activationTime", Val.vstr "2024-01-02T00:00:00"), ("url", Val.vstr "https://u"),
     ("locations", Val.vlist [Val.vstr "L"]), ("source", Val.vstr "SRC1")]
    [("id", Val.vstr "13b99f97a053b706161ea"), ("title", Val.vstr "T"),
     ("activationTime", Val.vstr "2024-01-02T00:00:00"), ("url", Val.vstr "https://u"),
     ("locations", Val.vlist [Val.vstr "L"]), ("source", Val.vstr "SRC2")]
    rfl rfl rfl
  exact ⟨h.1, h.2.1⟩

end JobScraper

namespace JobScraper

/-! ## Lemmas about the page stream -/

theorem reqFrom_self (maxPages : Option Nat) (p : Nat) (h : pageLE p maxPages = true) :
    reqFrom maxPages p p = 1 := by
  cases maxPages with
  | none => dsimp only [reqFrom]; omega
  | some m =>
      have hpm : p ≤ m := by simpa [pageLE] using h
      dsimp only [reqFrom]
      rw [Nat.min_def]
      split_ifs <;> omega

theorem reqFrom_step (maxPages : Option Nat) (p pstar : Nat) (h : pageLE p maxPages = true)
    (hlt : p < pstar) :
    reqFrom maxPages (p + 1) pstar + 1 = reqFrom maxPages p pstar := by
  cases maxPages with
  | none => dsimp only [reqFrom]; omega
  | some m =>
      have hpm : p ≤ m := by simpa [pageLE] using h
      dsimp only [reqFrom]
      rw [Nat.min_def, Nat.min_def]
      split_ifs <;> omega

theorem jobStream_requests (pages : Nat → FetchOutcome) (now src : String)
    (maxPages : Option Nat) (pstar : Nat)
    (hstop : stopAt pages pstar = true)
    (hmin : ∀ q, 1 ≤ q → q < pstar → stopAt pages q = false) :
    ∀ fuel p, 1 ≤ p → p ≤ pstar → fuel ≥ pstar + 1 - p →
      (jobStream pages now src maxPages p fuel).1 = reqFrom maxPages p pstar := by
  intro fuel
  induction fuel with
  | zero => intro p h1 h2 h3; omega
  | succ fuel ih =>
      intro p h1 h2 h3
      show (jobStream pages now src maxPages p (fuel + 1)).1 = _
      unfold jobStream
      cases hle : pageLE p maxPages with
      | false =>
          obtain ⟨m, hm⟩ : ∃ m, maxPages = some m := by
            cases maxPages with
            | none => simp [pageLE] at hle
            | some m => exact ⟨m, rfl⟩
          subst hm
          have hpm : ¬ p ≤ m := by simpa [pageLE] using hle
          simp only [Bool.false_eq_true, if_false, reqFrom]
          omega
      | true =>
          simp only [if_true]
          by_cases hps : p = pstar
          · subst hps
            unfold stopAt at hstop
            cases hpg : pages p with
            | exhausted =>
                have hreq : reqFrom maxPages p p = 1 := reqFrom_self maxPages p hle
                simp [hreq]
            | result d =>
                rw [hpg] at hstop
                have hreq : reqFrom maxPages p p = 1 := reqFrom_self maxPages p hle
                cases d with
                | none => simp [hreq]
                | some data =>
                    simp only at hstop
                    cases hje : (streamJobs data).isEmpty with
                    | true => simp [hje, hreq]
                    | false =>
                        rw [hje] at hstop
                        simp only [Bool.false_or] at hstop
                        simp [hje, hstop, hreq]
          · have hlt : p < pstar := lt_of_le_of_ne h2 hps
            have hns := hmin p h1 hlt
            unfold stopAt at hns
            cases hpg : pages p with
            | exhausted => rw [hpg] at hns; simp at hns
            | result d =>
                rw [hpg] at hns
                cases d with
                | none => simp at hns
                | some data =>
                    simp only at hns
                    have hje : (streamJobs data).isEmpty = false := by
                      cases hje : (streamJobs data).isEmpty with
                      | false => rfl
                      | true => rw [hje] at hns; simp at hns
                    have hnx : hasNext data = true := by
                      rw [hje] at hns
                      simp only [Bool.false_or] at hns
                      cases hnx : hasNext data with
                      | true => rfl
                      | false => rw [hnx] at hns; simp at hns
                    have hrec := ih (p + 1) (by omega) (by omega) (by omega)
                    simp only [hje, Bool.false_eq_true, if_false, hnx, Bool.not_true]
                    rw [hrec]
                    exact reqFrom_step maxPages p pstar hle hlt

end JobScraper

namespace JobScraper

/-- C7: the page stream terminates exactly at the first page where the
continuation flag is falsy or the listings are empty (`pstar`), or at the
optional page ceiling, whichever comes first: the loop issues exactly
`min pstar ceiling` page requests (with `pstar` alone when no ceiling is
set); and for the spec's upstream with `hasNextPage = false` on page 3, the
loop issues exactly 3 requests. -/
theorem page_stream_termination (pages : Nat → FetchOutcome) (now src : String)
    (maxPages : Option Nat) (pstar fuel : Nat)
    (hp1 : 1 ≤ pstar) (hfuel : fuel ≥ pstar)
    (hok : ∀ q, 1 ≤ q → q ≤ pstar → ∃ data, pages q = .result (some data))
    (hstop : stopAt pages pstar = true)
    (hmin : ∀ q, 1 ≤ q → q < pstar → stopAt pages q = false) :
    ((jobStream pages now src maxPages 1 fuel).1
        = match maxPages with
          | none => pstar
          | some m => min pstar m) ∧
    (jobStream scenarioPages "2024-06-01T00:00:00" "api_scraper" none 1 10).1 = 3 := by
  constructor
  · have h := jobStream_requests pages now src maxPages pstar hstop hmin fuel 1
      (by omega) hp1 (by omega)
    rw [h]
    cases maxPages with
    | none => dsimp only [reqFrom]; omega
    | some m =>
        dsimp only [reqFrom]
        rw [Nat.min_def, Nat.min_def]
        split_ifs <;> omega
  · rfl

/-- C7 witness: the scenario upstream (`hasNextPage = false` on page 3) run
through the theorem — 3 requests with no ceiling, and a ceiling of 2 caps the
stream at 2 requests. -/
theorem page_stream_termination_witness :
    ((jobStream scenarioPages "2024-06-01T00:00:00" "api_scraper" none 1 10).1 = 3) ∧
    ((jobStream scenarioPages "2024-06-01T00:00:00" "api_scraper" (some 2) 1 10).1 = 2) := by
  have hok : ∀ q, 1 ≤ q → q ≤ 3 → ∃ data, scenarioPages q = .result (some data) := by
    intro q h1 h2
    interval_cases q
    · exact ⟨_, rfl⟩
    · exact ⟨_, rfl⟩
    · exact ⟨_, rfl⟩
  have hmin : ∀ q, 1 ≤ q → q < 3 → stopAt scenarioPages q = false := by
    intro q h1 h2
    interval_cases q
    · rfl
    · rfl
  have h1 := page_stream_termination scenarioPages "2024-06-01T00:00:00" "api_scraper"
    none 3 10 (by omega) (by omega) hok rfl hmin
  have h2 := page_stream_termination scenarioPages "2024-06-01T00:00:00" "api_scraper"
    (some 2) 3 10 (by omega) (by omega) hok rfl hmin
  exact ⟨h1.1, h2.1⟩

/-- C9: an HTTP 401 makes `fetch_jobs` return `None` without raising, so the
tenacity wrapper issues exactly one attempt (no retry); and the `job_stream`
caller, seeing the `None`, breaks immediately: with a 401 at page `k` the run
issues exactly `k` page requests and fetches no further pages. -/
theorem terminal_401_aborts (att : Nat → HttpResponse) (pages : Nat → FetchOutcome)
    (now src : String) (k fuel : Nat)
    (hatt : att 0 = .status 401)
    (hk : 1 ≤ k) (hfuel : fuel ≥ k)
    (h401 : pages k = .result none)
    (hgood : ∀ q, 1 ≤ q → q < k → stopAt pages q = false) :
    fetchAttempt (.status 401) = .ok none ∧
    fetchJobsModel att = (.result none, 1) ∧
    (jobStream pages now src none 1 fuel).1 = k := by
  refine ⟨rfl, ?_, ?_⟩
  · unfold fetchJobsModel fetchRetryGo
    rw [hatt]
    rfl
  · have hstop : stopAt pages k = true := by unfold stopAt; rw [h401]
    have h := jobStream_requests pages now src none k hstop hgood fuel 1
      (by omega) hk (by omega)
    rw [h]
    dsimp only [reqFrom]
    omega

/-- C9 witness: every attempt answers 401; the fetch makes one attempt and
returns `None`, and a stream whose first page yields that `None` issues
exactly one request. -/
theorem terminal_401_aborts_witness :
    fetchJobsModel (fun _ => .status 401) = (.result none, 1) ∧
    (jobStream (fun _ => FetchOutcome.result none) "t" "s" none 1 5).1 = 1 := by
  have h := terminal_401_aborts (fun _ => .status 401) (fun _ => FetchOutcome.result none)
    "t" "s" 1 5 rfl (by omega) (by omega) rfl (by intro q h1 h2; omega)
  exact ⟨h.2.1, h.2.2⟩

end JobScraper

namespace JobScraper


/-! ## Lemmas about the producer/consumer pipeline -/

theorem produceGo_sentinel_last (bid ts : String) (bs : Nat) :
    ∀ (stream : List Rec) (cur : List Rec) (fa : Option Nat),
      ∃ q', (produceGo bid ts bs stream cur fa).1 = q' ++ [none] ∧ none ∉ q' := by
  intro stream
  induction stream with
  | nil =>
      intro cur fa
      match fa with
      | some 0 => exact ⟨[], rfl, by simp⟩
      | some (k + 1) =>
          refine ⟨if cur.isEmpty then [] else [some (cur, bid)], rfl, ?_⟩
          split <;> simp
      | none =>
          refine ⟨if cur.isEmpty then [] else [some (cur, bid)], rfl, ?_⟩
          split <;> simp
  | cons j rest ih =>
      intro cur fa
      match fa with
      | some 0 => exact ⟨[], rfl, by simp⟩
      | some (k + 1) =>
          by_cases hsz : (cur ++ [j]).length ≥ bs
          · obtain ⟨q', hq, hm⟩ := ih [] (some k)
            refine ⟨some (cur ++ [j], bid) :: q', ?_, by simp [hm]⟩
            show (if (cur ++ [j]).length ≥ bs then _ else _ :
              List QItem × Option (String × List Rec)).1 = _
            rw [if_pos hsz]
            simp [hq]
          · obtain ⟨q', hq, hm⟩ := ih (cur ++ [j]) (some k)
            refine ⟨q', ?_, hm⟩
            show (if (cur ++ [j]).length ≥ bs then _ else _ :
              List QItem × Option (String × List Rec)).1 = _
            rw [if_neg hsz]
            exact hq
      | none =>
          by_cases hsz : (cur ++ [j]).length ≥ bs
          · obtain ⟨q', hq, hm⟩ := ih [] none
            refine ⟨some (cur ++ [j], bid) :: q', ?_, by simp [hm]⟩
            show (if (cur ++ [j]).length ≥ bs then _ else _ :
              List QItem × Option (String × List Rec)).1 = _
            rw [if_pos hsz]
            simp [hq]
          · obtain ⟨q', hq, hm⟩ := ih (cur ++ [j]) none
            refine ⟨q', ?_, hm⟩
            show (if (cur ++ [j]).length ≥ bs then _ else _ :
              List QItem × Option (String × List Rec)).1 = _
            rw [if_neg hsz]
            exact hq

theorem produceGo_dump_eq (bid ts : String) (bs : Nat) :
    ∀ (stream : List Rec) (cur : List Rec) (k : Nat),
      joinedBatches (produceGo bid ts bs stream cur (some k)).1
          ++ dumpRecs (produceGo bid ts bs stream cur (some k)).2
        = cur ++ stream.take k := by
  intro stream
  induction stream with
  | nil =>
      intro cur k
      match k with
      | 0 =>
          show joinedBatches [none] ++ dumpRecs (if cur.isEmpty then none
            else some (dumpFile ts, cur)) = cur ++ List.take 0 []
          cases hc : cur.isEmpty with
          | true =>
              have hcur : cur = [] := by simpa using hc
              simp [hcur, joinedBatches, dumpRecs]
          | false => simp [hc, joinedBatches, dumpRecs]
      | k + 1 =>
          show joinedBatches ((if cur.isEmpty then [] else [some (cur, bid)]) ++ [none])
            ++ dumpRecs none = cur ++ List.take (k + 1) []
          cases hc : cur.isEmpty with
          | true =>
              have hcur : cur = [] := by simpa using hc
              simp [hcur, joinedBatches, dumpRecs]
          | false => simp [hc, joinedBatches, dumpRecs]
  | cons j rest ih =>
      intro cur k
      match k with
      | 0 =>
          show joinedBatches [none] ++ dumpRecs (if cur.isEmpty then none
            else some (dumpFile ts, cur)) = cur ++ List.take 0 (j :: rest)
          cases hc : cur.isEmpty with
          | true =>
              have hcur : cur = [] := by simpa using hc
              simp [hcur, joinedBatches, dumpRecs]
          | false => simp [hc, joinedBatches, dumpRecs]
      | k + 1 =>
          by_cases hsz : (cur ++ [j]).length ≥ bs
          · have hstep : produceGo bid ts bs (j :: rest) cur (some (k + 1))
                = (some (cur ++ [j], bid) :: (produceGo bid ts bs rest [] (some k)).1,
                   (produceGo bid ts bs rest [] (some k)).2) := by
              show (if (cur ++ [j]).length ≥ bs then _ else _ :
                List QItem × Option (String × List Rec)) = _
              rw [if_pos hsz]
            rw [hstep]
            have hrec := ih [] k
            simp only [joinedBatches, List.foldr_cons] at hrec ⊢
            simp only [List.nil_append] at hrec
            rw [List.append_assoc, hrec]
            simp
          · have hstep : produceGo bid ts bs (j :: rest) cur (some (k + 1))
                = produceGo bid ts bs rest (cur ++ [j]) (some k) := by
              show (if (cur ++ [j]).length ≥ bs then _ else _ :
                List QItem × Option (String × List Rec)) = _
              rw [if_neg hsz]
            rw [hstep, ih (cur ++ [j]) k]
            simp

theorem produceGo_dump_name (bid ts : String) (bs : Nat) :
    ∀ (stream : List Rec) (cur : List Rec) (fa : Option Nat) (f : String) (l : List Rec),
      (produceGo bid ts bs stream cur fa).2 = some (f, l) →
      f = dumpFile ts ∧ l ≠ [] := by
  intro stream
  induction stream with
  | nil =>
      intro cur fa f l h
      match fa with
      | some 0 =>
          rw [show (produceGo bid ts bs [] cur (some 0)).2
            = (if cur.isEmpty then none else some (dumpFile ts, cur)) from rfl] at h
          cases hc : cur.isEmpty with
          | true => rw [hc] at h; simp at h
          | false =>
              rw [hc] at h
              simp only [Bool.false_eq_true, if_false, Option.some.injEq, Prod.mk.injEq] at h
              refine ⟨h.1.symm, ?_⟩
              rw [← h.2]
              simpa using hc
      | some (k + 1) =>
          rw [show (produceGo bid ts bs [] cur (some (k + 1))).2 = none from rfl] at h
          cases h
      | none =>
          rw [show (produceGo bid ts bs [] cur none).2 = none from rfl] at h
          cases h
  | cons j rest ih =>
      intro cur fa f l h
      match fa with
      | some 0 =>
          rw [show (produceGo bid ts bs (j :: rest) cur (some 0)).2
            = (if cur.isEmpty then none else some (dumpFile ts, cur)) from rfl] at h
          cases hc : cur.isEmpty with
          | true => rw [hc] at h; simp at h
          | false =>
              rw [hc] at h
              simp only [Bool.false_eq_true, if_false, Option.some.injEq, Prod.mk.injEq] at h
              refine ⟨h.1.symm, ?_⟩
              rw [← h.2]
              simpa using hc
      | some (k + 1) =>
          by_cases hsz : (cur ++ [j]).length ≥ bs
          · rw [show (produceGo bid ts bs (j :: rest) cur (some (k + 1)))
                = (some (cur ++ [j], bid) :: (produceGo bid ts bs rest [] (some k)).1,
                   (produceGo bid ts bs rest [] (some k)).2) from by
                show (if (cur ++ [j]).length ≥ bs then _ else _ :
                  List QItem × Option (String × List Rec)) = _
                rw [if_pos hsz]] at h
            exact ih [] (some k) f l h
          · rw [show (produceGo bid ts bs (j :: rest) cur (some (k + 1)))
                = produceGo bid ts bs rest (cur ++ [j]) (some k) from by
                show (if (cur ++ [j]).length ≥ bs then _ else _ :
                  List QItem × Option (String × List Rec)) = _
                rw [if_neg hsz]] at h
            exact ih (cur ++ [j]) (some k) f l h
      | none =>
          by_cases hsz : (cur ++ [j]).length ≥ bs
          · rw [show (produceGo bid ts bs (j :: rest) cur none)
                = (some (cur ++ [j], bid) :: (produceGo bid ts bs rest [] none).1,
                   (produceGo bid ts bs rest [] none).2) from by
                show (if (cur ++ [j]).length ≥ bs then _ else _ :
                  List QItem × Option (String × List Rec)) = _
                rw [if_pos hsz]] at h
            exact ih [] none f l h
          · rw [show (produceGo bid ts bs (j :: rest) cur none)
                = produceGo bid ts bs rest (cur ++ [j]) none from by
                show (if (cur ++ [j]).length ≥ bs then _ else _ :
                  List QItem × Option (String × List Rec)) = _
                rw [if_neg hsz]] at h
            exact ih (cur ++ [j]) none f l h

theorem consumeGo_cons_some (persist : List Rec → Nat) (maxErr : Nat)
    (batch : List Rec) (b : String) (rest : List QItem) (errs : Nat) :
    consumeGo persist maxErr (some (batch, b) :: rest) errs
      = if persist batch > 0 then batch :: consumeGo persist maxErr rest 0
        else if errs + 1 ≥ maxErr then [batch]
        else batch :: consumeGo persist maxErr rest (errs + 1) := rfl

theorem consumeGo_stops_at_sentinel (persist : List Rec → Nat) (maxErr : Nat) :
    ∀ (q' : List QItem), none ∉ q' → ∀ (q₂ : List QItem) (e : Nat),
      consumeGo persist maxErr ((q' ++ [none]) ++ q₂) e
        = consumeGo persist maxErr (q' ++ [none]) e := by
  intro q'
  induction q' with
  | nil => intro _ q₂ e; rfl
  | cons it q' ih =>
      intro hmem q₂ e
      have hit : ∃ p, it = some p := by
        cases it with
        | none => exact absurd (List.mem_cons_self _ _) hmem
        | some p => exact ⟨p, rfl⟩
      obtain ⟨⟨batch, b⟩, rfl⟩ := hit
      have hmem' : none ∉ q' := fun hc => hmem (List.mem_cons_of_mem _ hc)
      show consumeGo persist maxErr (some (batch, b) :: (q' ++ [none] ++ q₂)) e
        = consumeGo persist maxErr (some (batch, b) :: (q' ++ [none])) e
      rw [consumeGo_cons_some, consumeGo_cons_some]
      by_cases h1 : persist batch > 0
      · rw [if_pos h1, if_pos h1, ih hmem' q₂ 0]
      · rw [if_neg h1, if_neg h1]
        by_cases h2 : e + 1 ≥ maxErr
        · rw [if_pos h2, if_pos h2]
        · rw [if_neg h2, if_neg h2, ih hmem' q₂ (e + 1)]

end JobScraper

namespace JobScraper

/-- C6: on every exit path of the producer — normal completion (`failAfter =
none`) or exception (`failAfter = some k`) — the queue trace ends with the
sentinel and contains no earlier sentinel; on the exception path every record
consumed from the stream is either inside an enqueued batch or inside the
emergency dump (no silent loss), and a written dump is non-empty and keyed by
the timestamped file name `unqueued_jobs_{ts}.json`; and the consumer never
reads past the first sentinel: appending anything after the producer's trace
leaves the consumer's processing unchanged. -/
theorem producer_sentinel_consumer_stop (bid ts : String) (bs : Nat) (jobs : List Rec)
    (fa : Option Nat) (persist : List Rec → Nat) (maxErr : Nat) :
    (∃ q', (produceJobs bid ts bs jobs fa).1 = q' ++ [none] ∧ none ∉ q') ∧
    (∀ k, fa = some k →
      joinedBatches (produceJobs bid ts bs jobs fa).1
          ++ dumpRecs (produceJobs bid ts bs jobs fa).2 = jobs.take k) ∧
    (∀ f l, (produceJobs bid ts bs jobs fa).2 = some (f, l) →
      f = dumpFile ts ∧ l ≠ []) ∧
    (∀ (q₂ : List QItem) (e : Nat),
      consumeGo persist maxErr ((produceJobs bid ts bs jobs fa).1 ++ q₂) e
        = consumeGo persist maxErr (produceJobs bid ts bs jobs fa).1 e) := by
  obtain ⟨q', hq, hm⟩ := produceGo_sentinel_last bid ts bs jobs [] fa
  refine ⟨⟨q', hq, hm⟩, ?_, ?_, ?_⟩
  · intro k hk
    subst hk
    simpa using produceGo_dump_eq bid ts bs jobs [] k
  · intro f l h
    exact produceGo_dump_name bid ts bs jobs [] fa f l h
  · intro q₂ e
    rw [show (produceJobs bid ts bs jobs fa).1 = q' ++ [none] from hq]
    exact consumeGo_stops_at_sentinel persist maxErr q' hm q₂ e

/-- C6 witness: three one-record batches with batch size 2 and an exception
after the third stream record — the queue is one full batch then the
sentinel, the leftover third record lands in `unqueued_jobs_TS.json`, nothing
is lost, and a consumer given extra queue content past the sentinel processes
exactly the same batches. -/
theorem producer_sentinel_consumer_stop_witness :
    ((produceJobs "b" "TS" 2 [[("id", Val.vstr "1")], [("id", Val.vstr "2")],
        [("id", Val.vstr "3")]] (some 3)).1
      = [some ([[("id", Val.vstr "1")], [("id", Val.vstr "2")]], "b"), none]) ∧
    (joinedBatches (produceJobs "b" "TS" 2 [[("id", Val.vstr "1")], [("id", Val.vstr "2")],
        [("id", Val.vstr "3")]] (some 3)).1
      ++ dumpRecs (produceJobs "b" "TS" 2 [[("id", Val.vstr "1")], [("id", Val.vstr "2")],
        [("id", Val.vstr "3")]] (some 3)).2
      = [[("id", Val.vstr "1")], [("id", Val.vstr "2")], [("id", Val.vstr "3")]]) ∧
    ((produceJobs "b" "TS" 2 [[("id", Val.vstr "1")], [("id", Val.vstr "2")],
        [("id", Val.vstr "3")]] (some 3)).2
      = some ("unqueued_jobs_TS.json", [[("id", Val.vstr "3")]])) ∧
    (consumeGo (fun b => b.length) 5
        ((produceJobs "b" "TS" 2 [[("id", Val.vstr "1")], [("id", Val.vstr "2")],
          [("id", Val.vstr "3")]] (some 3)).1 ++ [some ([[("id", Val.vstr "9")]], "x")]) 0
      = consumeGo (fun b => b.length) 5
        (produceJobs "b" "TS" 2 [[("id", Val.vstr "1")], [("id", Val.vstr "2")],
          [("id", Val.vstr "3")]] (some 3)).1 0) := by
  have h := producer_sentinel_consumer_stop "b" "TS" 2
    [[("id", Val.vstr "1")], [("id", Val.vstr "2")], [("id", Val.vstr "3")]] (some 3)
    (fun b => b.length) 5
  refine ⟨rfl, ?_, rfl, h.2.2.2 [some ([[("id", Val.vstr "9")]], "x")] 0⟩
  simpa using h.2.1 3 rfl

/-- C1 (code-bug evidence): the circuit-breaker variables are local to each
`_process_jobs` call, so a run over batches carries no breaker state: with
threshold 4, batch 1 suffers 4 consecutive connection-classified failures and
sets the open flag during its own call, yet batch 2 in the same run still
makes a database upsert attempt (`dbAttempts = 1`) instead of skipping the
database path as the claim requires. -/
theorem circuit_breaker_resets_each_batch :
    ((runBatches ⟨true, 4, 3, false⟩
        [(⟨true, true, [.connError, .connError, .connError, .connError], true⟩, 2),
         (⟨true, true, [.success 2], true⟩, 2)]).map BatchResult.circuitOpened
      = [true, false]) ∧
    ((runBatches ⟨true, 4, 3, false⟩
        [(⟨true, true, [.connError, .connError, .connError, .connError], true⟩, 2),
         (⟨true, true, [.success 2], true⟩, 2)]).map BatchResult.dbAttempts
      = [4, 1]) :=
  ⟨rfl, rfl⟩

/-- C2 counterexample: with the database enabled, connected, file writing
enabled, and the upsert succeeding with zero rows, `_process_jobs` runs the
file writer for that batch (`fileWritten = true`) and counts the batch via
the file path (`returned = len(jobs) = 2`) — so a zero-row database success
does trigger the file fallback, contrary to the claim. -/
theorem zero_rows_triggers_file_counterexample :
    ((processBatch ⟨true, 5, 3, false⟩ ⟨true, true, [.success 0], true⟩ 2).fileWritten
      = true) ∧
    ((processBatch ⟨true, 5, 3, false⟩ ⟨true, true, [.success 0], true⟩ 2).returned = 2) :=
  ⟨rfl, rfl⟩

/-- C2 (amended): a database success reporting zero rows is not treated as a
completed persistence by the database path: control falls through to the file
writer and the batch is counted via the file path (`len(jobs)`); only a
positive inserted count — with save-files-alongside-database disabled —
returns early and skips the file write. -/
theorem zero_rows_falls_through_to_file (cfg : ScraperCfg) (env envP : BatchEnv)
    (jobsLen m : Nat)
    (hj : jobsLen ≠ 0) (hdb : cfg.dbEnabled = true) (hc : env.connected = true)
    (hz : env.attempts = [.success 0]) (hf : env.fileOk = true)
    (hm : m > 0) (hsv : cfg.saveFilesWithDb = false)
    (hcP : envP.connected = true) (hzP : envP.attempts = [.success m]) :
    (processBatch cfg env jobsLen).fileWritten = true ∧
    (processBatch cfg env jobsLen).returned = jobsLen ∧
    (processBatch cfg envP jobsLen).fileWritten = false ∧
    (processBatch cfg envP jobsLen).returned = m := by
  have hloop : dbRetryLoop cfg.maxRetries cfg.threshold [AttemptResult.success 0] 0 0
      = (.success 0, 1, 0, false) := by
    cases hmr : cfg.maxRetries <;> rfl
  have hloopP : dbRetryLoop cfg.maxRetries cfg.threshold [AttemptResult.success m] 0 0
      = (.success m, 1, 0, false) := by
    cases hmr : cfg.maxRetries <;> rfl
  unfold processBatch
  rw [if_neg hj, hdb, hc, hz, hzP, hcP]
  simp only [Bool.true_and, Bool.true_or, if_true, hloop, hloopP]
  refine ⟨?_, ?_, ?_, ?_⟩
  · simp [filePhase, hf]
  · simp [filePhase, hf]
  · simp [hsv, hm, hj]
  · simp [hsv, hm, hj]

/-- C2 witness: concrete zero-row and positive-row runs. -/
theorem zero_rows_falls_through_to_file_witness :
    ((processBatch ⟨true, 5, 3, false⟩ ⟨true, true, [.success 0], true⟩ 2).fileWritten
      = true) ∧
    ((processBatch ⟨true, 5, 3, false⟩ ⟨true, true, [.success 0], true⟩ 2).returned = 2) ∧
    ((processBatch ⟨true, 5, 3, false⟩ ⟨true, true, [.success 1], true⟩ 2).fileWritten
      = false) ∧
    ((processBatch ⟨true, 5, 3, false⟩ ⟨true, true, [.success 1], true⟩ 2).returned = 1) := by
  exact zero_rows_falls_through_to_file ⟨true, 5, 3, false⟩
    ⟨true, true, [.success 0], true⟩ ⟨true, true, [.success 1], true⟩ 2 1
    (by omega) rfl rfl rfl rfl (by omega) rfl rfl rfl

end JobScraper
